import Mathlib

/-!
Verification development for the MATB-II randomized scenario generator
(`matbexp`): a shallow embedding of `matbii_events.py`, `matbii_tasks.py`,
`matbii_helpers.py` and `gen_matbii_events.py`, followed by theorems about
the embedded definitions.

Modelling conventions:
* NumPy's global pseudo-random generator is modelled by `RNG`, a stream of
  natural numbers plus a cursor; every random draw reads one stream value
  and advances the cursor.  `seed_everything` resets the generator to a
  state that is a function of the seed alone (mirroring `np.random.seed`).
* Python strings are modelled as `String` / `List Char`; machine integers
  as `Int` (times) and `Nat` (counts, seconds fed to the clock formatter,
  which only ever receives non-negative values in the pipeline).
* Fallible operations (list indexing, `np.random.choice` on an empty
  range, time-string parsing) return `Except Err`; unbounded `while`
  loops are given explicit fuel and report `Err.fuelExhausted` when it
  runs out.
-/

namespace Matbexp

/-- Model of the process-wide NumPy random state: an infinite stream of
natural draws and a cursor.  Each primitive draw consumes one stream value. -/
structure RNG where
  stream : Nat → Nat
  idx : Nat

def RNG.next (g : RNG) : Nat × RNG :=
  (g.stream g.idx, { g with idx := g.idx + 1 })

/-- Embedding of `seed_everything` (misc/random.py): resets the global
generator to a state determined by the seed alone. -/
def seed_everything (seed : Int) : RNG :=
  ⟨fun n => seed.toNat + n, 0⟩

/-- Errors of the embedded pipeline. -/
inductive Err where
  | indexError
  | keyError
  | emptyChoice
  | formatError
  | fuelExhausted
deriving DecidableEq, Repr

/-- `np.random.randint(a, b)`: one uniform draw from the half-open range
`[a, b)` (junk result `a + n` when the range is empty, which no call site
exercises: the only use is `np.random.randint(1, 8)`). -/
def randint (a b : Int) (g : RNG) : Int × RNG :=
  let (n, g') := g.next
  (a + ((n % (b - a).toNat : Nat) : Int), g')

/-- `np.random.choice(np.arange(a, b))`: NumPy raises on an empty range. -/
def choiceRange (a b : Int) (g : RNG) : Except Err (Int × RNG) :=
  if a < b then
    let (n, g') := g.next
    .ok (a + ((n % (b - a).toNat : Nat) : Int), g')
  else .error .emptyChoice

/-- `np.random.choice(l)` for a list of labels. -/
def choiceList (l : List String) (g : RNG) : Except Err (String × RNG) :=
  match l with
  | [] => .error .emptyChoice
  | x :: xs =>
      let (n, g') := g.next
      .ok ((x :: xs).getD (n % (xs.length + 1)) x, g')

/-- Exchange the elements at positions `i` and `j` (identity when either
index is out of range; Fisher-Yates only uses in-range indices). -/
def listSwap (l : List α) (i j : Nat) : List α :=
  match l.get? i, l.get? j with
  | some x, some y => (l.set i y).set j x
  | _, _ => l

/-- The Fisher-Yates walk of `np.random.shuffle`: positions `i+1` down
to `1`, each exchanged with a uniform draw from `[0, position]`. -/
def shuffleAux : Nat → List α → RNG → List α × RNG
  | 0, l, g => (l, g)
  | i + 1, l, g =>
      let (n, g') := g.next
      shuffleAux i (listSwap l (i + 1) (n % (i + 2))) g'

/-- `np.random.shuffle`: uniform in-place reshuffle of a list. -/
def npShuffle (l : List α) (g : RNG) : List α × RNG :=
  shuffleAux (l.length - 1) l g

/-! ## Time codec (`matbii_helpers.py`) -/

/-- Decimal digit rendering (most significant first), fuel-bounded so that
it is structurally recursive; `natDigits` supplies sufficient fuel. -/
def natDigitsAux : Nat → Nat → List Char
  | 0, _ => []
  | fuel + 1, n =>
      if n < 10 then [Nat.digitChar n]
      else natDigitsAux fuel (n / 10) ++ [Nat.digitChar (n % 10)]

def natDigits (n : Nat) : List Char := natDigitsAux (n + 1) n

/-- The digit run of `f"{n:02d}"` for a non-negative value: decimal digits,
zero-padded on the left to width two. -/
def pad2 (n : Nat) : List Char :=
  let ds := natDigits n
  if ds.length < 2 then '0' :: ds else ds

/-- Embedding of `_format_seconds` on the character level:
`hours:minutes:seconds`, each zero-padded to two digits. -/
def formatSecondsChars (seconds : Nat) : List Char :=
  pad2 (seconds / 3600) ++ ':' :: (pad2 (seconds % 3600 / 60) ++ ':' :: pad2 (seconds % 60))

/-- `_format_seconds`: seconds to the textual clock format "HH:MM:SS". -/
def _format_seconds (seconds : Nat) : String :=
  ⟨formatSecondsChars seconds⟩

/-- Python's `str.split(sep)` on the character level (always returns at
least one, possibly empty, piece). -/
def splitOnChar (sep : Char) : List Char → List (List Char)
  | [] => [[]]
  | c :: rest =>
    match splitOnChar sep rest with
    | [] => [[]]
    | s :: ss => if c = sep then [] :: s :: ss else (c :: s) :: ss

def digitVal (c : Char) : Option Nat :=
  if '0' ≤ c ∧ c ≤ '9' then some (c.toNat - 48) else none

def parseNatAux : List Char → Nat → Option Nat
  | [], acc => some acc
  | c :: cs, acc =>
      match digitVal c with
      | some d => parseNatAux cs (acc * 10 + d)
      | none => none

/-- Decimal digit-run parser: the digits-only core of Python's `int`. -/
def parseNatChars (cs : List Char) : Option Nat :=
  match cs with
  | [] => none
  | _ :: _ => parseNatAux cs 0

/-- Python's `int` on a trimmed literal: an optional sign then digits. -/
def parseIntChars (cs : List Char) : Option Int :=
  match cs with
  | '-' :: rest => (parseNatChars rest).map (fun n => -(Int.ofNat n))
  | _ => (parseNatChars cs).map Int.ofNat

/-- Embedding of `_parse_time_string` on the character level: split on
`:`, expect exactly three integer components, combine. -/
def parseTimeChars (cs : List Char) : Option Int :=
  match splitOnChar ':' cs with
  | [h, m, s] => do
      let hv ← parseIntChars h
      let mv ← parseIntChars m
      let sv ← parseIntChars s
      some (hv * 3600 + mv * 60 + sv)
  | _ => none

/-- `_parse_time_string`: "HH:MM:SS" text to total seconds; `none` models
the `ValueError` raised on malformed text. -/
def _parse_time_string (s : String) : Option Int :=
  parseTimeChars s.data

/-! ## Constraint checker (`matbii_events.py`) -/

def commLabels : List String := ["comm-own", "comm-other"]

/-- `np.diff`: consecutive differences. -/
def diffList (l : List Int) : List Int :=
  List.zipWith (fun a b => a - b) l.tail l

/-- `np.max` of the counts `np.unique(window, return_counts=True)` yields. -/
def maxCount (window : List String) : Nat :=
  (window.map (fun x => window.count x)).foldl Nat.max 0

/-- Embedding of `_has_repeated_values`: some sliding window of
`window_size` holds one label more than `max_repeats` times.  The Python
bound `len(array) - window_size + 1` equals `len(array) + 1 - window_size`,
whose truncation at zero matches `range` of a non-positive number. -/
def _has_repeated_values (array : List String) (max_repeats window_size : Nat) : Bool :=
  (List.range (array.length + 1 - window_size)).any (fun i =>
    decide (max_repeats < maxCount ((array.drop i).take window_size)))

/-- Embedding of `_check_task_times_comply`.  NumPy boolean-mask selections
over the aligned `task_types`/`event_times` arrays become filters over
their zip. -/
def _check_task_times_comply (task_types : List String) (event_times : List Int)
    (seconds_before_comm_stop seconds_after_comm_start min_seconds_fail_fix_resman
      min_seconds_between_comm min_seconds_between_sysmon_light
      min_seconds_between_sysmon_scale session_duration_seconds : Int)
    (max_repeats window_size : Nat) : Bool :=
  let pairs := task_types.zip event_times
  let max_seconds_last_comm := session_duration_seconds - seconds_before_comm_stop
  let should_not_be_comm :=
    (pairs.filter (fun p => decide (max_seconds_last_comm ≤ p.2))).map Prod.fst
      ++ (pairs.filter (fun p => decide (p.2 ≤ seconds_after_comm_start))).map Prod.fst
  let comm_times := (pairs.filter (fun p => commLabels.contains p.1)).map Prod.snd
  let should_not_be_resman :=
    (pairs.filter (fun p =>
      decide (session_duration_seconds - min_seconds_fail_fix_resman - 1 ≤ p.2))).map Prod.fst
  let sysmon_light_times := (pairs.filter (fun p => p.1 == "sysmon-light")).map Prod.snd
  let sysmon_scale_times := (pairs.filter (fun p => p.1 == "sysmon-scale")).map Prod.snd
  if should_not_be_comm.any (fun t => commLabels.contains t) then false
  else if (diffList comm_times).any (fun d => decide (d < min_seconds_between_comm)) then false
  else if should_not_be_resman.any (fun t => t == "resman") then false
  else if (diffList sysmon_light_times).any (fun d =>
      decide (d < min_seconds_between_sysmon_light)) then false
  else if (diffList sysmon_scale_times).any (fun d =>
      decide (d < min_seconds_between_sysmon_scale)) then false
  else if _has_repeated_values task_types max_repeats window_size then false
  else true

/-! ## Rejection-sampling scheduler -/

def _N_ATTEMPTS_CHECK_TASK_TIME_COMPLY : Nat := 100000

/-- The `while not task_times_comply and attempts < N` loop of
`ensure_task_times_comply`: reshuffle, re-check, count the attempt.  The
final (shuffled-in-place) task-type list and generator state are returned
along with the compliance flag, since the caller keeps using both. -/
def ensureLoop (check : List String → Bool) :
    Nat → List String → RNG → Bool × List String × RNG
  | 0, tt, g => (false, tt, g)
  | fuel + 1, tt, g =>
      let p := npShuffle tt g
      if check p.1 then (true, p.1, p.2)
      else ensureLoop check fuel p.1 p.2

/-- Embedding of `ensure_task_times_comply`: up to 100000 reshuffles of the
task types against the fixed event times, stopping at the first compliant
one; the checker is invoked with its default spacing thresholds and
`max_repeats=2`, `window_size=3`. -/
def ensure_task_times_comply (task_types : List String) (event_times : List Int)
    (seconds_before_comm_stop seconds_after_comm_start
      min_seconds_fail_fix_resman session_duration_seconds : Int) (g : RNG) :
    Bool × List String × RNG :=
  ensureLoop
    (fun tt => _check_task_times_comply tt event_times seconds_before_comm_stop
      seconds_after_comm_start min_seconds_fail_fix_resman 30 15 10
      session_duration_seconds 2 3)
    _N_ATTEMPTS_CHECK_TASK_TIME_COMPLY task_types g

/-- The successive in-place states of the shuffled list: state `k` is the
task-type list after `k + 1` reshuffles. -/
def shuffleIter (tt : List String) (g : RNG) : Nat → List String × RNG
  | 0 => npShuffle tt g
  | k + 1 => npShuffle (shuffleIter tt g k).1 (shuffleIter tt g k).2

/-! ## Event time sampler and task type allocator -/

def _GRACE_SECONDS_BEFORE_SESSION_DURATION : Int := 25

/-- `int(np.round(a / b))` for positive `b`: round half to even. -/
def roundHalfEven (a b : Int) : Int :=
  let q := a / b
  let r := a - q * b
  if 2 * r < b then q
  else if b < 2 * r then q + 1
  else if q % 2 = 0 then q else q + 1

def cumsumAux (acc : Int) : List Int → List Int
  | [] => []
  | d :: ds => (acc + d) :: cumsumAux (acc + d) ds

/-- `np.cumsum`. -/
def cumsum (l : List Int) : List Int := cumsumAux 0 l

/-- `np.random.choice(np.arange(a, b), size=k, replace=True)`: `k`
independent uniform draws from `[a, b)` (the range is checked non-empty by
the caller). -/
def drawChoices (a b : Int) : Nat → RNG → List Int × RNG
  | 0, g => ([], g)
  | k + 1, g =>
      let n := g.next
      let rest := drawChoices a b k n.2
      ((a + ((n.1 % (b - a).toNat : Nat) : Int)) :: rest.1, rest.2)

/-- Embedding of `generate_random_events`: sample
`round(session_duration / min_gap)` inter-event gaps from
`[min_gap, max_gap)`, cumulatively sum them, keep only candidates at most
`session_duration - 25`. -/
def generate_random_events (min_seconds_event_diff max_seconds_event_diff
    session_duration_seconds : Int) (g : RNG) : Except Err (List Int × RNG) :=
  let size := (roundHalfEven session_duration_seconds min_seconds_event_diff).toNat
  if min_seconds_event_diff < max_seconds_event_diff then
    let dr := drawChoices min_seconds_event_diff max_seconds_event_diff size g
    let event_times := cumsum dr.1
    .ok (event_times.filter (fun t =>
      decide (t ≤ session_duration_seconds - _GRACE_SECONDS_BEFORE_SESSION_DURATION)), dr.2)
  else .error .emptyChoice

/-- Embedding of `generate_task_types`: each category label repeated its
configured count, in the source's listing order. -/
def generate_task_types (n_pump_failures n_own_comm n_other_comm
    n_green_red_issues n_systems_up_down : Nat) : List String :=
  List.replicate n_pump_failures "resman"
    ++ List.replicate n_own_comm "comm-own"
    ++ List.replicate n_other_comm "comm-other"
    ++ List.replicate n_green_red_issues "sysmon-light"
    ++ List.replicate n_systems_up_down "sysmon-scale"

/-- The five-category vocabulary `_adjust_task_types` pads from. -/
def taskVocab : List String :=
  ["resman", "sysmon-light", "sysmon-scale", "comm-own", "comm-other"]

/-- The padding loop of `_adjust_task_types`: append `k` uniform draws
from the vocabulary. -/
def padTaskTypes : Nat → List String → RNG → Except Err (List String × RNG)
  | 0, tt, g => .ok (tt, g)
  | k + 1, tt, g => do
      let (x, g') ← choiceList taskVocab g
      padTaskTypes k (tt ++ [x]) g'

/-- Embedding of `_adjust_task_types`: truncate or pad the task types to
the event-time count, returning the original counts as well. -/
def _adjust_task_types (task_types : List String) (event_times : List Int) (g : RNG) :
    Except Err (List String × Nat × Nat × RNG) :=
  let n_task_types := task_types.length
  let n_event_times := event_times.length
  if event_times.length < task_types.length then
    .ok (task_types.take event_times.length, n_task_types, n_event_times, g)
  else if task_types.length < event_times.length then do
    let (tt, g') ← padTaskTypes (event_times.length - task_types.length) task_types g
    .ok (tt, n_task_types, n_event_times, g')
  else
    .ok (task_types, n_task_types, n_event_times, g)

/-! ## XML event tree (`xml.etree.ElementTree` as used by the generator) -/

/-- An element tree node: tag, attributes, text, children — or a comment
node (`ElementTree.Comment`).  The comments inside the initial XML string
are dropped by `fromstring`, so they do not appear in `initialRoot`. -/
inductive XTree where
  | elem (tag : String) (attrs : List (String × String)) (text : Option String)
      (children : List XTree)
  | comment (s : String)
deriving Repr

def leafEl (tag txt : String) : XTree := .elem tag [] (some txt) []

def schedEl (task action update response : String) : XTree :=
  .elem "sched" [] none
    [leafEl "task" task, leafEl "action" action,
      leafEl "update" update, leafEl "response" response]

/-- `fromstring(_INITIAL_XML_STRING_MATBII)`: the RESSYS start and TRACK
manual events (the XML comments are discarded by the parser). -/
def initialRoot : XTree :=
  .elem "MATB-EVENTS" [] none
    [ .elem "event" [ ("startTime", "0:00:01")] none [schedEl "RESSYS" "START" "NULL" "NULL"],
      .elem "event" [ ("startTime", "0:00:02")] none [schedEl "TRACK" "MANUAL" "HIGH" "MEDIUM"] ]

/-- `SubElement(root, ...)`: append one child. -/
def appendChild (root : XTree) (c : XTree) : XTree :=
  match root with
  | .elem t a x cs => .elem t a x (cs ++ [c])
  | .comment s => .comment s

def childrenOf : XTree → List XTree
  | .elem _ _ _ cs => cs
  | .comment _ => []

def tagOf : XTree → String
  | .elem t _ _ _ => t
  | .comment _ => "#comment"

/-- `elem.attrib[key]`: `KeyError` when absent. -/
def getAttr (e : XTree) (key : String) : Except Err String :=
  match e with
  | .elem _ attrs _ _ =>
      match attrs.find? (fun kv => kv.1 == key) with
      | some kv => .ok kv.2
      | none => .error .keyError
  | .comment _ => .error .keyError

/-- `root.findall("event")`. -/
def findallEvents (root : XTree) : List XTree :=
  (childrenOf root).filter (fun e => tagOf e == "event")

/-- `event.find(tag) is not None`. -/
def hasChildTag (e : XTree) (tag : String) : Bool :=
  (childrenOf e).any (fun c => tagOf c == tag)

/-- `_get_seconds_from_elem`: parse the `startTime` attribute. -/
def _get_seconds_from_elem (e : XTree) : Except Err Int := do
  let s ← getAttr e "startTime"
  match _parse_time_string s with
  | some v => .ok v
  | none => .error .formatError

/-- Stable insertion into an ascending list: a later element goes after
all earlier elements with a key at most its own, like Python's stable
`sorted`. -/
def insertSorted (x : Int × XTree) : List (Int × XTree) → List (Int × XTree)
  | [] => [x]
  | y :: ys => if y.1 ≤ x.1 then y :: insertSorted x ys else x :: y :: ys

/-- `_sort_events_by_seconds`: stable-sort the root's children by their
decoded start times (a malformed time raises). -/
def _sort_events_by_seconds (root : XTree) : Except Err XTree :=
  match root with
  | .elem t a x cs => do
      let keyed ← cs.mapM (fun e => do
        let k ← _get_seconds_from_elem e
        pure (k, e))
      .ok (.elem t a x ((keyed.foldl (fun acc y => insertSorted y acc) []).map Prod.snd))
  | .comment s => .ok (.comment s)

/-! ## Generation initialization -/

structure CommStems where
  own : List String
  other : List String
deriving Repr

/-- `_get_comm_stems`: shuffle each call sign's stem list.  The raw stems
(bundled JSON list or directory scan) enter through the `stemsFor`
parameter; the shuffles consume the global generator in order
"own" then "other". -/
def _get_comm_stems (stemsFor : String → List String) (g : RNG) : CommStems × RNG :=
  let own := npShuffle (stemsFor "own") g
  let other := npShuffle (stemsFor "other") own.2
  (⟨own.1, other.1⟩, other.2)

def _INITIAL_XML_DECLARATION : String := "<?xml version=\"1.0\" encoding=\"UTF-8\" ?>\n"

/-- `_initialize_matbii_generation`: seed (when a seed is given), build the
initial tree plus the session-start control event, shuffle the comm stems. -/
def _initialize_matbii_generation (random_state : Option Int)
    (stemsFor : String → List String) (g : RNG) : String × XTree × CommStems × RNG :=
  let g0 := match random_state with
    | some s => seed_everything s
    | none => g
  let root := appendChild initialRoot
    (.elem "event" [ ("startTime", "0:00:00")] none [leafEl "control" "START"])
  let sg := _get_comm_stems stemsFor g0
  (_INITIAL_XML_DECLARATION, root, sg.1, sg.2)

/-- `_generate_event_times_and_task_types`. -/
def _generate_event_times_and_task_types (session_duration_minutes
    min_seconds_event_diff max_seconds_event_diff : Int)
    (n_pump_failures n_own_comm n_other_comm n_green_red_issues n_systems_up_down : Nat)
    (g : RNG) : Except Err (Int × List Int × List String × RNG) := do
  let session_duration_seconds := session_duration_minutes * 60
  let ev ← generate_random_events min_seconds_event_diff max_seconds_event_diff
    session_duration_seconds g
  let task_types := generate_task_types n_pump_failures n_own_comm n_other_comm
    n_green_red_issues n_systems_up_down
  .ok (session_duration_seconds, ev.1, task_types, ev.2)

/-! ## Task materializer (`matbii_tasks.py`) -/

/-- The pump failure bitmaps: `{"P0": np.zeros(D), ..., "P8": np.zeros(D)}`. -/
abbrev PumpDict : Type := List (String × List Bool)

def initPumpDict (sds : Nat) : PumpDict :=
  (List.range 9).map (fun i => ("P" ++ toString i, List.replicate sds false))

def dictGet (d : PumpDict) (p : String) : List Bool :=
  match d.find? (fun kv => kv.1 == p) with
  | some kv => kv.2
  | none => []

def dictSet (d : PumpDict) (p : String) (bits : List Bool) : PumpDict :=
  d.map (fun kv => if kv.1 == p then (kv.1, bits) else kv)

/-- `np.all(bits[a:b] == 0)`. -/
def sliceAll0 (bits : List Bool) (a b : Int) : Bool :=
  ((bits.drop a.toNat).take (b - a).toNat).all (fun x => x == false)

def setSliceAux : List Bool → Int → Int → Int → List Bool
  | [], _, _, _ => []
  | x :: xs, i, a, b => (if a ≤ i ∧ i < b then true else x) :: setSliceAux xs (i + 1) a b

/-- `bits[a:b] = 1` (call sites have `0 ≤ a`). -/
def setSlice (bits : List Bool) (a b : Int) : List Bool :=
  setSliceAux bits 0 a b

def _FUEL : Nat := 1000000

/-- The `while fix_time_seconds >= len - 1` redraw loop of
`_generate_resman_task`: resample the fail-to-fix gap until the fix lands
strictly before the last representable second. -/
def selectFixTime (min_seconds_fail_fix max_seconds_fail_fix failT : Int) (bitsLen : Nat) :
    Nat → RNG → Except Err (Int × RNG)
  | 0, _ => .error .fuelExhausted
  | fuel + 1, g => do
      let d ← choiceRange min_seconds_fail_fix max_seconds_fail_fix g
      if (bitsLen : Int) - 1 ≤ d.1 + failT then
        selectFixTime min_seconds_fail_fix max_seconds_fail_fix failT bitsLen fuel d.2
      else .ok (d.1 + failT, d.2)

/-- The `while need_to_select_pump` loop of `_generate_resman_task`: draw
`np.random.randint(1, 8)`, accept the pump only if its failure bitmap is
all-zero over `[fail_time, fix_time)`, and then mark that window. -/
def selectPump (d : PumpDict) (failT fixT : Int) :
    Nat → RNG → Except Err (String × PumpDict × RNG)
  | 0, _ => .error .fuelExhausted
  | fuel + 1, g =>
      let r := randint 1 8 g
      let pump := "P" ++ toString r.1
      if sliceAll0 (dictGet d pump) failT fixT then
        .ok (pump, dictSet d pump (setSlice (dictGet d pump) failT fixT), r.2)
      else selectPump d failT fixT fuel r.2

/-- Embedding of `_generate_resman_task` (the dictionary-tracking branch
used by the generator; the fix-time string is formatted between the two
loops, which uses no randomness). -/
def _generate_resman_task (root : XTree) (time : String)
    (min_seconds_fail_fix max_seconds_fail_fix : Int) (d : PumpDict) (g : RNG) :
    Except Err (XTree × PumpDict × RNG) := do
  let failT ← match _parse_time_string time with
    | some v => Except.ok v
    | none => Except.error Err.formatError
  let fx ← selectFixTime min_seconds_fail_fix max_seconds_fail_fix failT
    (dictGet d "P1").length _FUEL g
  let fix_time := _format_seconds fx.1.toNat
  let pm ← selectPump d failT fx.1 _FUEL fx.2
  let root1 := appendChild root (.elem "event" [ ("startTime", time)] none
    [.comment "Resman task - Fail", .elem "resman" [] none [leafEl "fail" pm.1]])
  let root2 := appendChild root1 (.elem "event" [ ("startTime", fix_time)] none
    [.comment "Resman task - Fix", .elem "resman" [] none [leafEl "fix" pm.1]])
  .ok (root2, pm.2.1, pm.2.2)

/-- Embedding of `_generate_sysmon_task`. -/
def _generate_sysmon_task (root : XTree) (time : String) (sysmon_subtype : String)
    (g : RNG) : Except Err (XTree × RNG) :=
  if sysmon_subtype == "light" then do
    let c ← choiceList ["GREEN", "RED"] g
    let sysAttrs := if c.1 == "GREEN" then [ ("activity", "START")] else []
    .ok (appendChild root (.elem "event" [ ("startTime", time)] none
      [.comment "System Monitoring task",
        .elem "sysmon" sysAttrs none [leafEl "monitoringLightType" c.1]]), c.2)
  else do
    let n ← choiceList ["ONE", "TWO", "THREE", "FOUR"] g
    let dir ← choiceList ["UP", "DOWN"] n.2
    .ok (appendChild root (.elem "event" [ ("startTime", time)] none
      [.comment "System Monitoring task",
        .elem "sysmon" [] none
          [leafEl "monitoringScaleNumber" n.1, leafEl "monitoringScaleDirection" dir.1]]), dir.2)

/-- Python list indexing: `IndexError` out of range. -/
def listIdx {α : Type} (l : List α) (n : Nat) : Except Err α :=
  match l.get? n with
  | some x => .ok x
  | none => .error .indexError

/-- `list.pop()`: remove and return the last element. -/
def popLast (l : List String) : Except Err (String × List String) :=
  match l.getLast? with
  | some x => .ok (x, l.dropLast)
  | none => .error .indexError

def charsUpper (s : String) : String := ⟨s.data.map Char.toUpper⟩

/-- Embedding of `_generate_comm_task`: split the stem on `_` into
(ship, radio, frequency), rewrite the frequency's `-` as a decimal point. -/
def _generate_comm_task (root : XTree) (time : String) (comm_stem : String) :
    Except Err XTree := do
  let parts := splitOnChar '_' comm_stem.data
  let ship ← listIdx parts 0
  let radio ← listIdx parts 1
  let p2 ← listIdx parts 2
  let fparts := splitOnChar '-' p2
  let f0 ← listIdx fparts 0
  let f1 ← listIdx fparts 1
  .ok (appendChild root (.elem "event" [ ("startTime", time)] none
    [.comment "Communications task",
      .elem "comm" [] none
        [leafEl "ship" ⟨ship⟩, leafEl "radio" ⟨radio⟩, leafEl "freq" ⟨f0 ++ '.' :: f1⟩]]))

/-- The `for task_type, event_time in zip(...)` dispatch loop of
`_generate_random_tasks`. -/
def genTasksLoop : List (String × Int) → XTree → CommStems → Int → Int → PumpDict → RNG →
    Except Err (XTree × CommStems × PumpDict × RNG)
  | [], root, stems, _, _, d, g => .ok (root, stems, d, g)
  | (task_type, event_time) :: rest, root, stems, minFF, maxFF, d, g => do
      let time := _format_seconds event_time.toNat
      if task_type == "resman" then do
        let r ← _generate_resman_task root time minFF maxFF d g
        genTasksLoop rest r.1 stems minFF maxFF r.2.1 r.2.2
      else if (splitOnChar '-' task_type.data).headD [] = "sysmon".data then do
        let subtype ← listIdx (splitOnChar '-' task_type.data) 1
        let r ← _generate_sysmon_task root time ⟨subtype⟩ g
        genTasksLoop rest r.1 stems minFF maxFF d r.2
      else if (splitOnChar '-' task_type.data).headD [] = "comm".data then do
        let shipRaw ← listIdx (splitOnChar '-' task_type.data) 1
        let ship := charsUpper ⟨shipRaw⟩
        if ship == "OWN" then do
          let p ← popLast stems.own
          let root1 ← _generate_comm_task root time p.1
          genTasksLoop rest root1 { stems with own := p.2 } minFF maxFF d g
        else if ship == "OTHER" then do
          let p ← popLast stems.other
          let root1 ← _generate_comm_task root time p.1
          genTasksLoop rest root1 { stems with other := p.2 } minFF maxFF d g
        else .error .keyError
      else genTasksLoop rest root stems minFF maxFF d g

/-- Embedding of `_generate_random_tasks`. -/
def _generate_random_tasks (root : XTree) (task_types : List String)
    (event_times : List Int) (stems : CommStems)
    (min_seconds_fail_fix_resman max_seconds_fail_fix_resman : Int)
    (d : PumpDict) (g : RNG) : Except Err (XTree × CommStems × PumpDict × RNG) :=
  genTasksLoop (task_types.zip event_times) root stems
    min_seconds_fail_fix_resman max_seconds_fail_fix_resman d g

/-- Embedding of `_generate_tasks`: build the fresh pump bitmaps, run the
rejection-sampling scheduler on the (in-place reshuffled) task types, and
materialize the tasks only when a compliant shuffle was found. -/
def _generate_tasks (root : XTree) (task_types : List String) (event_times : List Int)
    (stems : CommStems)
    (min_seconds_fail_fix_resman max_seconds_fail_fix_resman
      session_duration_seconds seconds_before_comm_stop seconds_after_comm_start : Int)
    (g : RNG) : Except Err (XTree × CommStems × RNG) :=
  let pump_failed_dict := initPumpDict session_duration_seconds.toNat
  let e := ensure_task_times_comply task_types event_times seconds_before_comm_stop
    seconds_after_comm_start min_seconds_fail_fix_resman session_duration_seconds g
  if e.1 then do
    let r ← _generate_random_tasks root e.2.1 event_times stems
      min_seconds_fail_fix_resman max_seconds_fail_fix_resman pump_failed_dict e.2.2
    .ok (r.1, r.2.1, r.2.2.2)
  else .ok (root, stems, e.2.2)

/-! ## Session framing -/

/-- `_generate_comm_sched_task`. -/
def _generate_comm_sched_task (root : XTree) (time : String) (action : String) : XTree :=
  appendChild root (.elem "event" [ ("startTime", time)] none
    [.comment "Sched task",
      .elem "sched" [] none
        [leafEl "task" "COMM", leafEl "action" action,
          leafEl "update" "NULL", leafEl "response" "NULL"]])

/-- The extraction loop of `_get_comm_task_times`: start times of events
holding a `comm` child. -/
def commTimesLoop : List XTree → Except Err (List Int)
  | [] => .ok []
  | e :: rest =>
      if hasChildTag e "comm" then do
        let s ← getAttr e "startTime"
        let t ← (match _parse_time_string s with
          | some v => Except.ok v
          | none => Except.error Err.formatError)
        let r ← commTimesLoop rest
        .ok (t :: r)
      else commTimesLoop rest

def _get_comm_task_times (root : XTree) : Except Err (List Int) :=
  commTimesLoop (findallEvents root)

/-- The interval scan of `_generate_all_comm_start_stop`: gaps longer than
the silence threshold produce a (stop, start) bracketing pair. -/
def noCommIntervals (min_seconds_to_indicate_no_comm seconds_before_comm_stop
    seconds_after_comm_start : Int) : List Int → Int → List (Int × Int)
  | [], _ => []
  | ct :: rest, startNum =>
      (if min_seconds_to_indicate_no_comm < ct - startNum then
        [ (startNum + seconds_before_comm_stop, ct - seconds_after_comm_start)]
      else [])
        ++ noCommIntervals min_seconds_to_indicate_no_comm seconds_before_comm_stop
            seconds_after_comm_start rest ct

/-- Embedding of `_generate_all_comm_start_stop`: sort, collect the comm
task times, emit the initial START (indexing the first element of the list
— an `IndexError` when no comm task exists), bracket the long silent
intervals, emit the final STOP. -/
def _generate_all_comm_start_stop (root : XTree)
    (min_seconds_to_indicate_no_comm seconds_before_comm_stop seconds_after_comm_start
      session_duration_seconds : Int) : Except Err XTree := do
  let root1 ← _sort_events_by_seconds root
  let comm_task_times ← _get_comm_task_times root1
  let firstT ← listIdx comm_task_times 0
  let first_comm_start_time :=
    if seconds_after_comm_start < firstT then firstT - seconds_after_comm_start else firstT
  let root2 := _generate_comm_sched_task root1
    (_format_seconds first_comm_start_time.toNat) "START"
  let intervals := noCommIntervals min_seconds_to_indicate_no_comm seconds_before_comm_stop
    seconds_after_comm_start comm_task_times first_comm_start_time
  let root3 := intervals.foldl (fun r pq =>
    _generate_comm_sched_task
      (_generate_comm_sched_task r (_format_seconds pq.1.toNat) "STOP")
      (_format_seconds pq.2.toNat) "START") root2
  let lastT ← listIdx comm_task_times (comm_task_times.length - 1)
  let last_comm_stop_time :=
    if seconds_before_comm_stop < session_duration_seconds - lastT
    then lastT + seconds_before_comm_stop else session_duration_seconds
  .ok (_generate_comm_sched_task root3 (_format_seconds last_comm_stop_time.toNat) "STOP")

/-- Embedding of `_generate_auto_task`: AUTO at the drawn start, MANUAL
after the automation window, AUTO again three seconds before session end. -/
def _generate_auto_task (root : XTree) (auto_start_seconds : Int)
    (total_auto_minutes session_duration_seconds : Int) : XTree :=
  let root1 := appendChild root (.elem "event"
    [ ("startTime", _format_seconds auto_start_seconds.toNat)] none
    [.comment "Sched task", schedEl "TRACK" "AUTO" "NULL" "NULL"])
  let root2 := appendChild root1 (.elem "event"
    [ ("startTime", _format_seconds (auto_start_seconds + total_auto_minutes * 60).toNat)] none
    [.comment "Sched task", schedEl "TRACK" "MANUAL" "MEDIUM" "HIGH"])
  appendChild root2 (.elem "event"
    [ ("startTime", _format_seconds (session_duration_seconds - 3).toNat)] none
    [.comment "Sched task", schedEl "TRACK" "AUTO" "NULL" "NULL"])

/-- Embedding of `_generate_auto_and_comm_start_stop`: draw the automation
start from `np.arange(5, session_duration - total_auto*60 - 5)`, place the
automation events, then the communication bracketing. -/
def _generate_auto_and_comm_start_stop (root : XTree)
    (session_duration_seconds total_auto_minutes min_seconds_to_indicate_no_comm
      seconds_before_comm_stop seconds_after_comm_start : Int) (g : RNG) :
    Except Err (XTree × RNG) := do
  let buffer_seconds_auto : Int := 5
  let max_seconds_auto := session_duration_seconds - total_auto_minutes * 60 - buffer_seconds_auto
  let c ← choiceRange buffer_seconds_auto max_seconds_auto g
  let root1 := _generate_auto_task root c.1 total_auto_minutes session_duration_seconds
  let root2 ← _generate_all_comm_start_stop root1 min_seconds_to_indicate_no_comm
    seconds_before_comm_stop seconds_after_comm_start session_duration_seconds
  .ok (root2, c.2)

/-! ## Serializer -/

def tabs (n : Nat) : String := String.mk (List.replicate n '\t')

def renderAttrs (attrs : List (String × String)) : String :=
  attrs.foldl (fun acc kv => acc ++ " " ++ kv.1 ++ "=\"" ++ kv.2 ++ "\"") ""

/-- Deterministic tab-indented rendering of the tree, standing in for
`tostring` + `minidom.toprettyxml` + the indent/blank-line fixups (pure
deterministic string post-processing of the same tree).  The fuel bounds
the nesting depth, which is 3 for every tree the generator builds. -/
def renderNode : Nat → Nat → XTree → String
  | 0, _, _ => ""
  | _ + 1, depth, .comment s => tabs depth ++ "<!-- " ++ s ++ " -->\n"
  | fuel + 1, depth, .elem tag attrs txt children =>
      match txt, children with
      | some t, _ =>
          tabs depth ++ "<" ++ tag ++ renderAttrs attrs ++ ">" ++ t ++ "</" ++ tag ++ ">\n"
      | none, [] => tabs depth ++ "<" ++ tag ++ renderAttrs attrs ++ "/>\n"
      | none, _ :: _ =>
          tabs depth ++ "<" ++ tag ++ renderAttrs attrs ++ ">\n"
            ++ (children.map (renderNode fuel (depth + 1))).foldl (fun a b => a ++ b) ""
            ++ tabs depth ++ "</" ++ tag ++ ">\n"

def _RENDER_FUEL : Nat := 16

def _pretty_format_xml (root : XTree) (xml_declaration : String) : String :=
  xml_declaration ++ renderNode _RENDER_FUEL 0 root

/-- Embedding of `_finalize_matbii_generation`: the rate-START and
control-END events, the stable sort, the rendering. -/
def _finalize_matbii_generation (root : XTree) (session_duration_seconds : Int)
    (xml_declaration : String) : Except Err String := do
  let root1 := appendChild root (.elem "event"
    [ ("startTime", _format_seconds (session_duration_seconds - 2).toNat)] none
    [leafEl "rate" "START"])
  let root2 := appendChild root1 (.elem "event"
    [ ("startTime", _format_seconds session_duration_seconds.toNat)] none
    [leafEl "control" "END"])
  let root3 ← _sort_events_by_seconds root2
  .ok (_pretty_format_xml root3 xml_declaration)

/-- Embedding of `matbii_generate_random_xml`: the full pipeline, returning
the rendered document and the two counts, together with the final
generator state. -/
def matbii_generate_random_xml (random_state : Option Int)
    (min_seconds_event_diff max_seconds_event_diff session_duration_minutes
      min_seconds_fail_fix_resman max_seconds_fail_fix_resman
      min_seconds_to_indicate_no_comm seconds_before_comm_stop
      seconds_after_comm_start : Int)
    (n_pump_failures n_own_comm n_other_comm n_green_red_issues n_systems_up_down : Nat)
    (total_auto_minutes : Int) (stemsFor : String → List String) (g : RNG) :
    Except Err ((String × Nat × Nat) × RNG) := do
  let ini := _initialize_matbii_generation random_state stemsFor g
  let ev ← _generate_event_times_and_task_types session_duration_minutes
    min_seconds_event_diff max_seconds_event_diff n_pump_failures n_own_comm
    n_other_comm n_green_red_issues n_systems_up_down ini.2.2.2
  let adj ← _adjust_task_types ev.2.2.1 ev.2.1 ev.2.2.2
  let tk ← _generate_tasks ini.2.1 adj.1 ev.2.1 ini.2.2.1
    min_seconds_fail_fix_resman max_seconds_fail_fix_resman ev.1
    seconds_before_comm_stop seconds_after_comm_start adj.2.2.2
  let fr ← _generate_auto_and_comm_start_stop tk.1 ev.1 total_auto_minutes
    min_seconds_to_indicate_no_comm seconds_before_comm_stop seconds_after_comm_start
    tk.2.2
  let xml ← _finalize_matbii_generation fr.1 ev.1 ini.1
  .ok ((xml, adj.2.1, adj.2.2.1), fr.2)

/-! ## The caller-level retry loop (`gen_matbii_events.py`) -/

def MAX_ATTEMPTS : Nat := 100

/-- The `attempts += 1` bookkeeping of one loop iteration. -/
def bumpAttempt (r : Option String × Int × Int × Nat) : Option String × Int × Int × Nat :=
  (r.1, r.2.1, r.2.2.1, r.2.2.2 + 1)

/-- The `while n_task_types != n_event_times and attempts < max_attempts`
loop of `generate_and_save_xml`: call the generator at the current seed,
increment the seed, count the attempt.  Returns the last generated document
(if any), the final two counts and the number of attempts consumed. -/
def genLoop (gen : Int → String × Int × Int) :
    Nat → Int → Int → Int → Option String → Option String × Int × Int × Nat
  | 0, _, nt, ne, xml => (xml, nt, ne, 0)
  | fuel + 1, seed, nt, ne, xml =>
      if nt ≠ ne then
        bumpAttempt (genLoop gen fuel (seed + 1) (gen seed).2.1 (gen seed).2.2 (some (gen seed).1))
      else (xml, nt, ne, 0)

/-- Embedding of `generate_and_save_xml`'s control flow, with the XML
generator abstracted as `gen : seed -> (document, n_task_types,
n_event_times)` and the counts initialized to `-1` and `0`.  Returns the
document written to disk, or `none` when the function logs
"Maximum attempts reached" and returns without writing. -/
def generate_and_save_xml (gen : Int → String × Int × Int) (seed : Int)
    (max_attempts : Nat) : Option String :=
  if (genLoop gen max_attempts seed (-1) 0 none).2.2.2 = max_attempts then none
  else (genLoop gen max_attempts seed (-1) 0 none).1

/-! ## Auxiliary notions used by the theorems -/

/-- An all-zero random stream at cursor zero: one concrete generator state. -/
def rngZero : RNG := ⟨fun _ => 0, 0⟩

/-- A generator whose task-type and event-time counts disagree at every
seed except 99: starting from seed 0, the first 99 attempts mismatch and
the 100th matches. -/
def gen99 : Int → String × Int × Int :=
  fun s => ("doc", if s = 99 then 0 else 1, 0)

/-- `p in d` for the pump dictionary. -/
def containsKey (d : PumpDict) (p : String) : Bool :=
  d.any (fun kv => kv.1 == p)

/-- The pump dictionary that records exactly the failure placements of `S`:
each `(pump, fail, fix)` marks `[fail, fix)` in that pump's bitmap, starting
from the all-zero dictionary of a `session_duration`-second session. -/
def dictOfIntervals (sds : Nat) : List (String × Int × Int) → PumpDict
  | [] => initPumpDict sds
  | x :: rest =>
      dictSet (dictOfIntervals sds rest) x.1
        (setSlice (dictGet (dictOfIntervals sds rest) x.1) x.2.1 x.2.2)

/-- Two placements of the same pump occupy disjoint half-open windows. -/
def intervalsDisjoint (x y : String × Int × Int) : Prop :=
  x.1 = y.1 → min x.2.2 y.2.2 ≤ max x.2.1 y.2.1

/-- Does some event of the tree carry a communication payload. -/
def hasCommEvent (root : XTree) : Bool :=
  (findallEvents root).any (fun e => hasChildTag e "comm")

/-- Does the element's `startTime` attribute decode. -/
def timeParses (e : XTree) : Bool :=
  match _get_seconds_from_elem e with
  | .ok _ => true
  | .error _ => false

/-- Comm stems fixture for concrete runs. -/
def stemsFixture : String → List String := fun _ => []

/-- Full characterization of the pump-selection loop: the accepted pump is
the first draw (each of the form `1 + draw mod 7`) whose bitmap is all-zero
over the candidate window, and exactly that window is then marked. -/
def selectPumpSpec (d : PumpDict) (failT fixT : Int) (fuel : Nat) (g : RNG)
    (p : String) (d' : PumpDict) (g' : RNG) : Prop :=
  ∃ k : Nat, k < fuel
    ∧ (∃ m : Int, 1 ≤ m ∧ m ≤ 7 ∧ m = 1 + ((g.stream (g.idx + k) % 7 : Nat) : Int)
        ∧ p = "P" ++ toString m)
    ∧ sliceAll0 (dictGet d p) failT fixT = true
    ∧ (∀ j : Nat, j < k → sliceAll0 (dictGet d
        ("P" ++ toString (1 + ((g.stream (g.idx + j) % 7 : Nat) : Int)))) failT fixT = false)
    ∧ d' = dictSet d p (setSlice (dictGet d p) failT fixT)
    ∧ g' = ⟨g.stream, g.idx + (k + 1)⟩



/-! # Theorems -/

/-! ## Time codec -/

theorem splitOnChar_ne_nil (sep : Char) (l : List Char) : splitOnChar sep l ≠ [] := by
  cases l with
  | nil => simp [splitOnChar]
  | cons c rest =>
      simp only [splitOnChar]
      match splitOnChar sep rest with
      | [] => simp
      | s :: ss => by_cases h : c = sep <;> simp [h]

theorem splitOnChar_no_sep (sep : Char) (a : List Char) (h : sep ∉ a) :
    splitOnChar sep a = [a] := by
  induction a with
  | nil => rfl
  | cons c rest ih =>
      have hc : c ≠ sep := by intro hEq; exact h (hEq ▸ List.mem_cons_self c rest)
      have hr : sep ∉ rest := fun hm => h (List.mem_cons_of_mem c hm)
      simp [splitOnChar, ih hr, hc]

theorem splitOnChar_append (sep : Char) (a b : List Char) (h : sep ∉ a) :
    splitOnChar sep (a ++ sep :: b) = a :: splitOnChar sep b := by
  induction a with
  | nil =>
      simp only [List.nil_append, splitOnChar]
      match hb : splitOnChar sep b with
      | [] => exact absurd hb (splitOnChar_ne_nil sep b)
      | s :: ss => simp
  | cons c rest ih =>
      have hc : c ≠ sep := by intro hEq; exact h (hEq ▸ List.mem_cons_self c rest)
      have hr : sep ∉ rest := fun hm => h (List.mem_cons_of_mem c hm)
      simp only [List.cons_append, splitOnChar, List.append_eq, ih hr]
      simp [hc]

theorem digitChar_is_digit : ∀ m : Nat, m < 10 →
    '0' ≤ Nat.digitChar m ∧ Nat.digitChar m ≤ '9' := by decide

theorem natDigitsAux_digits :
    ∀ (fuel n : Nat), n < fuel → ∀ c ∈ natDigitsAux fuel n, '0' ≤ c ∧ c ≤ '9' := by
  intro fuel
  induction fuel with
  | zero => intro n h; omega
  | succ f ih =>
      intro n hn c hc
      by_cases h10 : n < 10
      · simp only [natDigitsAux, if_pos h10, List.mem_singleton] at hc
        subst hc
        exact digitChar_is_digit n h10
      · simp only [natDigitsAux, if_neg h10, List.mem_append, List.mem_singleton] at hc
        cases hc with
        | inl hmem =>
            have hdiv : n / 10 < f := by
              have := Nat.div_lt_self (by omega : 0 < n) (by norm_num : 1 < 10)
              omega
            exact ih (n / 10) hdiv c hmem
        | inr hEq =>
            subst hEq
            exact digitChar_is_digit (n % 10) (Nat.mod_lt _ (by norm_num))

theorem natDigitsAux_ne_nil :
    ∀ (fuel n : Nat), n < fuel → natDigitsAux fuel n ≠ [] := by
  intro fuel
  induction fuel with
  | zero => intro n h; omega
  | succ f _ =>
      intro n _
      by_cases h10 : n < 10 <;> simp [natDigitsAux, h10]

theorem digitVal_digitChar : ∀ m : Nat, m < 10 → digitVal (Nat.digitChar m) = some m := by
  decide

theorem parseNatAux_append (xs ys : List Char) :
    ∀ acc : Nat, parseNatAux (xs ++ ys) acc =
      match parseNatAux xs acc with
      | some a => parseNatAux ys a
      | none => none := by
  induction xs with
  | nil => intro acc; rfl
  | cons c rest ih =>
      intro acc
      simp only [List.cons_append, parseNatAux]
      cases digitVal c with
      | none => rfl
      | some d => exact ih _

theorem natDigitsAux_parse :
    ∀ (fuel n : Nat), n < fuel → ∀ acc : Nat,
      parseNatAux (natDigitsAux fuel n) acc =
        some (acc * 10 ^ (natDigitsAux fuel n).length + n) := by
  intro fuel
  induction fuel with
  | zero => intro n h; omega
  | succ f ih =>
      intro n hn acc
      by_cases h10 : n < 10
      · simp only [natDigitsAux, if_pos h10, parseNatAux, digitVal_digitChar n h10]
        simp [pow_one]  -- acc * 10 ^ 1 + n
      · have hdiv : n / 10 < f := by
          have := Nat.div_lt_self (by omega : 0 < n) (by norm_num : 1 < 10)
          omega
        simp only [natDigitsAux, if_neg h10]
        rw [parseNatAux_append]
        rw [ih (n / 10) hdiv acc]
        simp only [parseNatAux, digitVal_digitChar (n % 10) (Nat.mod_lt _ (by norm_num))]
        congr 1
        simp only [List.length_append, List.length_singleton]
        rw [pow_succ]
        have := Nat.div_add_mod n 10
        ring_nf
        omega

theorem natDigits_parse (n : Nat) : parseNatChars (natDigits n) = some n := by
  have hne := natDigitsAux_ne_nil (n + 1) n (by omega)
  unfold parseNatChars natDigits
  match hds : natDigitsAux (n + 1) n with
  | [] => exact absurd hds hne
  | c :: rest =>
      have := natDigitsAux_parse (n + 1) n (by omega) 0
      rw [hds] at this
      simpa using this

theorem pad2_parse_general (n : Nat) : parseIntChars (pad2 n) = some ((n : Nat) : Int) := by
  have hne := natDigitsAux_ne_nil (n + 1) n (by omega)
  have hdig := natDigitsAux_digits (n + 1) n (by omega)
  unfold pad2
  match hds : natDigits n with
  | [] => exact absurd hds hne
  | c :: rest =>
      have hcd : '0' ≤ c ∧ c ≤ '9' := by
        apply hdig
        rw [show natDigitsAux (n + 1) n = natDigits n from rfl, hds]
        exact List.mem_cons_self _ _
      have hparse : parseNatChars (c :: rest) = some n := by
        rw [← hds]; exact natDigits_parse n
      have hcne : c ≠ '-' := by
        intro hEq
        rw [hEq] at hcd
        revert hcd
        decide
      by_cases hlen : (c :: rest).length < 2
      · simp only [if_pos hlen]
        have hred : parseIntChars ('0' :: c :: rest)
            = (parseNatChars ('0' :: c :: rest)).map Int.ofNat := rfl
        have hzero : parseNatChars ('0' :: c :: rest) = parseNatAux (c :: rest) 0 := by
          show parseNatAux ('0' :: c :: rest) 0 = parseNatAux (c :: rest) 0
          rfl
        rw [hred, hzero]
        have : parseNatAux (c :: rest) 0 = some n := hparse
        rw [this]
        rfl
      · simp only [if_neg hlen]
        unfold parseIntChars
        split
        · rename_i rest' heq
          rw [List.cons.injEq] at heq
          exact absurd heq.1 hcne
        · rw [hparse]
          rfl

theorem pad2_no_colon (n : Nat) : ':' ∉ pad2 n := by
  have hdig := natDigitsAux_digits (n + 1) n (by omega)
  intro hmem
  unfold pad2 at hmem
  simp only at hmem
  have hni : (':' : Char) ∈ natDigits n → False := by
    intro h
    have := hdig ':' h
    revert this
    decide
  by_cases hlen : (natDigits n).length < 2
  · rw [if_pos hlen] at hmem
    cases hmem with
    | tail _ h => exact hni h
  · rw [if_neg hlen] at hmem
    exact hni hmem

/-- Round trip of the time codec for every non-negative seconds value. -/
theorem parse_format_roundtrip (n : Nat) :
    parseTimeChars (formatSecondsChars n) = some ((n : Nat) : Int) := by
  unfold formatSecondsChars parseTimeChars
  rw [splitOnChar_append ':' _ _ (pad2_no_colon _),
      splitOnChar_append ':' _ _ (pad2_no_colon _),
      splitOnChar_no_sep ':' _ (pad2_no_colon _)]
  simp only [pad2_parse_general, Option.bind_eq_bind, Option.some_bind]
  congr 1
  push_cast
  omega

/-- C8: for every integer `s` in `[0, 359999]`, decoding the encoding
round-trips: `_parse_time_string (_format_seconds s) = s`. -/
theorem C8_time_codec_roundtrip (s : Nat) (h : s ≤ 359999) :
    _parse_time_string (_format_seconds s) = some ((s : Nat) : Int) :=
  parse_format_roundtrip s

theorem C8_time_codec_roundtrip_witness :
    _parse_time_string (_format_seconds 359999) = some ((359999 : Nat) : Int) :=
  C8_time_codec_roundtrip 359999 (by norm_num)

-- Permutation facts about the Fisher-Yates shuffle

theorem get_cons_set_perm (t : List α) :
    ∀ (k : Nat) (a : α) (hk : k < t.length), (t.get ⟨k, hk⟩ :: t.set k a).Perm (a :: t) := by
  induction t with
  | nil => intro k a hk; simp at hk
  | cons b s ih =>
      intro k a hk
      cases k with
      | zero => simpa using List.Perm.swap a b s
      | succ m =>
          have hm : m < s.length := by simpa using hk
          have h1 : (s.get ⟨m, hm⟩ :: b :: s.set m a).Perm (b :: s.get ⟨m, hm⟩ :: s.set m a) :=
            List.Perm.swap b _ _
          have h2 : (b :: s.get ⟨m, hm⟩ :: s.set m a).Perm (b :: a :: s) := (ih m a hm).cons b
          have h3 : (b :: a :: s).Perm (a :: b :: s) := List.Perm.swap a b s
          simpa using (h1.trans h2).trans h3

theorem set_set_perm (l : List α) :
    ∀ (i j : Nat) (x y : α), l.get? i = some x → l.get? j = some y →
      ((l.set i y).set j x).Perm l := by
  induction l with
  | nil => intro i j x y hi _; simp at hi
  | cons b s ih =>
      intro i j x y hi hj
      cases i with
      | zero =>
          have hbx : b = x := Option.some.inj hi
          cases j with
          | zero =>
              have hby : b = y := Option.some.inj hj
              simp [← hbx, ← hby]
          | succ m =>
              simp only [List.get?_cons_succ] at hj
              obtain ⟨hm, hy⟩ := List.get?_eq_some.mp hj
              have : ((b :: s).set 0 y).set (m + 1) x = y :: s.set m x := by simp
              rw [this, ← hbx, ← hy]
              exact get_cons_set_perm s m b hm
      | succ n =>
          cases j with
          | zero =>
              have hby : b = y := Option.some.inj hj
              simp only [List.get?_cons_succ] at hi
              obtain ⟨hn, hx⟩ := List.get?_eq_some.mp hi
              have : ((b :: s).set (n + 1) y).set 0 x = x :: s.set n y := by simp
              rw [this, ← hby, ← hx]
              exact get_cons_set_perm s n b hn
          | succ m =>
              simp only [List.get?_cons_succ] at hi hj
              simpa using (ih n m x y hi hj).cons b

theorem listSwap_perm (l : List α) (i j : Nat) : (listSwap l i j).Perm l := by
  unfold listSwap
  cases hi : l.get? i with
  | none => exact List.Perm.refl l
  | some x =>
      cases hj : l.get? j with
      | none => exact List.Perm.refl l
      | some y => exact set_set_perm l i j x y hi hj

theorem shuffleAux_perm (k : Nat) : ∀ (l : List α) (g : RNG), ((shuffleAux k l g).1).Perm l := by
  induction k with
  | zero => intro l g; exact List.Perm.refl l
  | succ i ih =>
      intro l g
      show ((shuffleAux i (listSwap l (i + 1) (g.next.1 % (i + 2))) g.next.2).1).Perm l
      exact (ih _ _).trans (listSwap_perm l (i + 1) _)

theorem npShuffle_perm (l : List α) (g : RNG) : ((npShuffle l g).1).Perm l :=
  shuffleAux_perm _ l g

theorem shuffleIter_perm (tt : List String) (g : RNG) (k : Nat) :
    ((shuffleIter tt g k).1).Perm tt := by
  induction k with
  | zero => exact npShuffle_perm tt g
  | succ m ih => exact (npShuffle_perm _ _).trans ih

-- Characterization of the rejection-sampling loop

theorem shuffleIter_shift (tt : List String) (g : RNG) (k : Nat) :
    shuffleIter tt g (k + 1) = shuffleIter (npShuffle tt g).1 (npShuffle tt g).2 k := by
  induction k with
  | zero => rfl
  | succ m ih =>
      show npShuffle (shuffleIter tt g (m + 1)).1 (shuffleIter tt g (m + 1)).2 = _
      rw [ih]
      rfl

theorem ensureLoop_find (check : List String → Bool) :
    ∀ (fuel : Nat) (tt : List String) (g : RNG),
      ensureLoop check fuel tt g =
        match (List.range fuel).find? (fun k => check (shuffleIter tt g k).1) with
        | some k => (true, shuffleIter tt g k)
        | none => if fuel = 0 then (false, tt, g) else (false, shuffleIter tt g (fuel - 1)) := by
  intro fuel
  induction fuel with
  | zero => intro tt g; rfl
  | succ f ih =>
      intro tt g
      rw [List.range_succ_eq_map]
      have hunf : ensureLoop check (f + 1) tt g =
          if check (npShuffle tt g).1 then (true, (npShuffle tt g).1, (npShuffle tt g).2)
          else ensureLoop check f (npShuffle tt g).1 (npShuffle tt g).2 := rfl
      rw [hunf]
      cases h : check (npShuffle tt g).1 with
      | true =>
          have h0 : check (shuffleIter tt g 0).1 = true := h
          rw [if_pos rfl, List.find?_cons]
          simp only [h0]
          rfl
      | false =>
          have h0 : check (shuffleIter tt g 0).1 = false := h
          rw [if_neg (by simp), List.find?_cons]
          simp only [h0]
          rw [List.find?_map]
          have hcomp : ((fun k => check (shuffleIter tt g k).1) ∘ Nat.succ)
              = fun k => check (shuffleIter (npShuffle tt g).1 (npShuffle tt g).2 k).1 := by
            funext k
            simp [Function.comp, shuffleIter_shift]
          rw [hcomp, ih]
          cases hf : List.find?
              (fun k => check (shuffleIter (npShuffle tt g).1 (npShuffle tt g).2 k).1)
              (List.range f) with
          | some k =>
              simp only [Option.map_some']
              show (true, shuffleIter (npShuffle tt g).1 (npShuffle tt g).2 k)
                = ((true, shuffleIter tt g (k + 1)) : Bool × List String × RNG)
              rw [← shuffleIter_shift]
          | none =>
              simp only [Option.map_none']
              cases f with
              | zero => rfl
              | succ m =>
                  simp only [Nat.succ_ne_zero, if_neg, Nat.add_sub_cancel]
                  show ((false, shuffleIter (npShuffle tt g).1 (npShuffle tt g).2 m)
                      : Bool × List String × RNG)
                    = (false, shuffleIter tt g (m + 1))
                  rw [← shuffleIter_shift]

/-- C1: `ensure_task_times_comply` performs at most 100000 iterations, each
uniformly reshuffling the task-type sequence in place (a permutation of the
input) and re-running `_check_task_times_comply` against the same, never
modified, event times; it stops at the first compliant shuffle with `True`,
and when no attempt is compliant it returns `False` (a total function — no
exception), leaving the final reshuffled state in place. -/
theorem C1_scheduler_rejection_loop (task_types : List String) (event_times : List Int)
    (seconds_before_comm_stop seconds_after_comm_start
      min_seconds_fail_fix_resman session_duration_seconds : Int) (g : RNG) :
    (ensure_task_times_comply task_types event_times seconds_before_comm_stop
        seconds_after_comm_start min_seconds_fail_fix_resman session_duration_seconds g =
      match (List.range 100000).find? (fun k =>
          _check_task_times_comply (shuffleIter task_types g k).1 event_times
            seconds_before_comm_stop seconds_after_comm_start min_seconds_fail_fix_resman
            30 15 10 session_duration_seconds 2 3) with
      | some k => (true, shuffleIter task_types g k)
      | none => (false, shuffleIter task_types g 99999))
    ∧ ∀ k : Nat, ((shuffleIter task_types g k).1).Perm task_types := by
  constructor
  · show ensureLoop _ 100000 task_types g = _
    rw [ensureLoop_find]
    cases hf : List.find? (fun k =>
        _check_task_times_comply (shuffleIter task_types g k).1 event_times
          seconds_before_comm_stop seconds_after_comm_start min_seconds_fail_fix_resman
          30 15 10 session_duration_seconds 2 3) (List.range 100000) with
    | some k => rfl
    | none => norm_num
  · intro k
    exact shuffleIter_perm task_types g k

/-- C6: the scenario with tasks resman, sysmon-light, sysmon-scale,
comm-own, sysmon-scale at times 5, 20, 40, 50, 60 and the default
thresholds is compliant. -/
theorem C6_checker_default_scenario_compliant : _check_task_times_comply
    ["resman", "sysmon-light", "sysmon-scale", "comm-own", "sysmon-scale"]
    [5, 20, 40, 50, 60] 30 5 20 30 15 10 600 2 3 = true := by decide

theorem drawChoices_mem (a b : Int) (hab : a < b) :
    ∀ (k : Nat) (g : RNG) (d : Int), d ∈ (drawChoices a b k g).1 → a ≤ d ∧ d < b := by
  intro k
  induction k with
  | zero => intro g d hd; simp [drawChoices] at hd
  | succ m ih =>
      intro g d hd
      simp only [drawChoices, List.mem_cons] at hd
      cases hd with
      | inl hEq =>
          subst hEq
          have ht : 0 < (b - a).toNat := by omega
          have hlt := Nat.mod_lt (g.next.1) ht
          omega
      | inr h => exact ih _ _ h

theorem cumsumAux_mem_le (m : Int) :
    ∀ (l : List Int) (acc : Int), 0 ≤ m → (∀ d ∈ l, m ≤ d) →
      ∀ x ∈ cumsumAux acc l, acc + m ≤ x := by
  intro l
  induction l with
  | nil => intro acc _ _ x hx; simp [cumsumAux] at hx
  | cons d ds ih =>
      intro acc hm h x hx
      simp only [cumsumAux, List.mem_cons] at hx
      have hd := h d (List.mem_cons_self _ _)
      cases hx with
      | inl hEq => subst hEq; omega
      | inr hx =>
          have := ih (acc + d) hm (fun e he => h e (List.mem_cons_of_mem _ he)) x hx
          omega

theorem cumsumAux_pairwise :
    ∀ (l : List Int) (acc : Int), (∀ d ∈ l, 1 ≤ d) →
      (cumsumAux acc l).Pairwise (fun a b => a < b) := by
  intro l
  induction l with
  | nil => intro acc _; simp [cumsumAux]
  | cons d ds ih =>
      intro acc h
      simp only [cumsumAux]
      refine List.Pairwise.cons ?_ (ih (acc + d) (fun e he => h e (List.mem_cons_of_mem _ he)))
      intro x hx
      have := cumsumAux_mem_le 1 ds (acc + d) (by norm_num)
        (fun e he => h e (List.mem_cons_of_mem _ he)) x hx
      omega

/-- C4 (amended): under `1 <= min_gap < max_gap` every returned event-time
array is strictly increasing with every element `t` satisfying
`min_gap <= t` and `t <= session_duration - 25` (the filter keeps candidates
up to and including `session_duration - 25`). -/
theorem C4_event_sampler_bounds (minD maxD dur : Int) (g : RNG) (ts : List Int) (g' : RNG)
    (h1 : 1 ≤ minD) (h2 : minD < maxD)
    (h : generate_random_events minD maxD dur g = .ok (ts, g')) :
    ts.Pairwise (fun a b => a < b) ∧ ∀ t ∈ ts, minD ≤ t ∧ t ≤ dur - 25 := by
  unfold generate_random_events at h
  rw [if_pos h2] at h
  simp only [Except.ok.injEq, Prod.mk.injEq] at h
  obtain ⟨hts, -⟩ := h
  have hdraw : ∀ d ∈ (drawChoices minD maxD
      ((roundHalfEven dur minD).toNat) g).1, (1:Int) ≤ d := by
    intro d hd
    have := drawChoices_mem minD maxD h2 _ g d hd
    omega
  constructor
  · rw [← hts]
    exact List.Pairwise.filter _ (cumsumAux_pairwise _ 0 hdraw)
  · intro t ht
    rw [← hts] at ht
    rw [List.mem_filter] at ht
    obtain ⟨hmem, hdec⟩ := ht
    have hge := cumsumAux_mem_le minD _ 0 (by omega)
      (fun d hd => (drawChoices_mem minD maxD h2 _ g d hd).1) t hmem
    have hle : t ≤ dur - _GRACE_SECONDS_BEFORE_SESSION_DURATION := of_decide_eq_true hdec
    unfold _GRACE_SECONDS_BEFORE_SESSION_DURATION at hle
    constructor
    · omega
    · omega

theorem C4_event_sampler_bounds_witness :
    ([(5:Int)]).Pairwise (fun a b => a < b) ∧ ∀ t ∈ [(5:Int)], (5:Int) ≤ t ∧ t ≤ 30 - 25 :=
  C4_event_sampler_bounds 5 6 30 rngZero [5] ⟨rngZero.stream, 6⟩ (by norm_num) (by norm_num) rfl

/-- C4 counterexample: with `min_gap = 5 < max_gap = 6` and a 30-second
session, the sampler returns the array `[5]`, and its element
`5 = 30 - 25` is not strictly below `session_duration - 25`: the boundary
candidate is retained, not discarded. -/
theorem C4_counterexample_grace_boundary :
    (generate_random_events 5 6 30 rngZero).map (fun p => p.1) = .ok [5]
      ∧ ¬ ((5:Int) < 30 - 25) := by
  constructor
  · rfl
  · decide

theorem choiceList_mem (l : List String) (g : RNG) (x : String) (g' : RNG)
    (h : choiceList l g = .ok (x, g')) : x ∈ l := by
  cases l with
  | nil => simp [choiceList] at h
  | cons a xs =>
      simp only [choiceList, Except.ok.injEq, Prod.mk.injEq] at h
      obtain ⟨hx, -⟩ := h
      have hlt : g.next.1 % (xs.length + 1) < (a :: xs).length := by
        simp only [List.length_cons]
        exact Nat.mod_lt _ (Nat.succ_pos _)
      rw [← hx, List.getD_eq_getElem _ _ hlt]
      exact List.getElem_mem hlt

theorem padTaskTypes_spec :
    ∀ (k : Nat) (tt : List String) (g : RNG),
      ∃ extra g', padTaskTypes k tt g = .ok (tt ++ extra, g')
        ∧ extra.length = k ∧ ∀ x ∈ extra, x ∈ taskVocab := by
  intro k
  induction k with
  | zero =>
      intro tt g
      exact ⟨[], g, by simp [padTaskTypes], rfl, by simp⟩
  | succ m ih =>
      intro tt g
      obtain ⟨extra, g', hpad, hlen, hmem⟩ :=
        ih (tt ++ [taskVocab.getD (g.next.1 % 5) "resman"]) g.next.2
      refine ⟨taskVocab.getD (g.next.1 % 5) "resman" :: extra, g', ?_, by simp [hlen], ?_⟩
      · have hstep : padTaskTypes (m + 1) tt g =
            padTaskTypes m (tt ++ [taskVocab.getD (g.next.1 % 5) "resman"]) g.next.2 := rfl
        rw [hstep, hpad]
        simp
      · intro x hx
        cases hx with
        | head =>
            have h5 : g.next.1 % 5 < taskVocab.length := Nat.mod_lt _ (by norm_num)
            rw [List.getD_eq_getElem _ _ h5]
            exact List.getElem_mem h5
        | tail _ hx => exact hmem x hx

/-- C7: `_adjust_task_types` returns a sequence whose length equals the
event-time count — the leading prefix when the task types are longer,
the original sequence extended by vocabulary draws when shorter — together
with the original pre-adjustment task-type count and the event-time count. -/
theorem C7_adjust_task_types_spec (tt : List String) (et : List Int) (g : RNG) :
    ∃ tt' g', _adjust_task_types tt et g = .ok (tt', tt.length, et.length, g')
      ∧ tt'.length = et.length
      ∧ (et.length ≤ tt.length → tt' = tt.take et.length)
      ∧ (tt.length ≤ et.length → tt'.take tt.length = tt
          ∧ ∀ x ∈ tt'.drop tt.length, x ∈ taskVocab) := by
  by_cases hgt : et.length < tt.length
  · refine ⟨tt.take et.length, g, ?_, ?_, fun _ => rfl, fun hle => absurd hle (by omega)⟩
    · unfold _adjust_task_types
      rw [if_pos hgt]
    · simp only [List.length_take]
      omega
  · by_cases hlt : tt.length < et.length
    · obtain ⟨extra, g', hpad, hlen, hmem⟩ := padTaskTypes_spec (et.length - tt.length) tt g
      refine ⟨tt ++ extra, g', ?_, ?_, fun hle => absurd hlt (by omega), fun _ => ⟨?_, ?_⟩⟩
      · unfold _adjust_task_types
        rw [if_neg hgt, if_pos hlt]
        rw [hpad]
        rfl
      · simp only [List.length_append, hlen]
        omega
      · exact List.take_left tt extra
      · intro x hx
        rw [List.drop_left] at hx
        exact hmem x hx
    · have heq : tt.length = et.length := by omega
      refine ⟨tt, g, ?_, heq, fun _ => ?_, fun _ => ⟨?_, ?_⟩⟩
      · unfold _adjust_task_types
        rw [if_neg hgt, if_neg hlt]
      · rw [← heq, List.take_length]
      · rw [List.take_length]
      · simp




theorem genLoop_all_mismatch (gen : Int → String × Int × Int) :
    ∀ (fuel : Nat) (seed : Int) (nt ne : Int) (xml : Option String),
      (∀ k : Nat, k < fuel → (gen (seed + k)).2.1 ≠ (gen (seed + k)).2.2) →
      nt ≠ ne → (genLoop gen fuel seed nt ne xml).2.2.2 = fuel := by
  intro fuel
  induction fuel with
  | zero => intro seed nt ne xml _ _; rfl
  | succ f ih =>
      intro seed nt ne xml hmis hne
      have h0 := hmis 0 (Nat.succ_pos f)
      simp only [Nat.cast_zero, add_zero] at h0
      have hrec := ih (seed + 1) (gen seed).2.1 (gen seed).2.2 (some (gen seed).1)
        (fun k hk => by
          have hx := hmis (k + 1) (by omega)
          have harg : seed + 1 + (k : Int) = seed + ((k : Nat) + 1 : Nat) := by push_cast; ring
          rw [harg]
          exact hx)
        h0
      show (if nt ≠ ne then bumpAttempt _ else _).2.2.2 = f + 1
      rw [if_pos hne]
      show (genLoop gen f (seed + 1) (gen seed).2.1 (gen seed).2.2 (some (gen seed).1)).2.2.2 + 1
        = f + 1
      rw [hrec]

theorem genLoop_first_match (gen : Int → String × Int × Int) :
    ∀ (k fuel : Nat) (seed : Int) (nt ne : Int) (xml : Option String),
      k < fuel →
      (gen (seed + k)).2.1 = (gen (seed + k)).2.2 →
      (∀ j : Nat, j < k → (gen (seed + j)).2.1 ≠ (gen (seed + j)).2.2) →
      nt ≠ ne →
      genLoop gen fuel seed nt ne xml =
        (some (gen (seed + k)).1, (gen (seed + k)).2.1, (gen (seed + k)).2.2, k + 1) := by
  intro k
  induction k with
  | zero =>
      intro fuel seed nt ne xml hk hmatch _ hne
      cases fuel with
      | zero => omega
      | succ f =>
          simp only [Nat.cast_zero, add_zero] at hmatch ⊢
          show (if nt ≠ ne then bumpAttempt _ else _) = _
          rw [if_pos hne]
          have hstop : genLoop gen f (seed + 1) (gen seed).2.1 (gen seed).2.2
              (some (gen seed).1) = (some (gen seed).1, (gen seed).2.1, (gen seed).2.2, 0) := by
            cases f with
            | zero => rfl
            | succ f' =>
                show (if (gen seed).2.1 ≠ (gen seed).2.2 then bumpAttempt _ else _) = _
                rw [if_neg (not_not_intro hmatch)]
          rw [hstop]
          rfl
  | succ m ih =>
      intro fuel seed nt ne xml hk hmatch hmin hne
      cases fuel with
      | zero => omega
      | succ f =>
          have h0 := hmin 0 (Nat.succ_pos m)
          simp only [Nat.cast_zero, add_zero] at h0
          have harg : ∀ j : Nat, seed + 1 + (j : Int) = seed + ((j : Nat) + 1 : Nat) := by
            intro j; push_cast; ring
          have hrec := ih f (seed + 1) (gen seed).2.1 (gen seed).2.2 (some (gen seed).1)
            (by omega)
            (by rw [harg m]; exact hmatch)
            (fun j hj => by rw [harg j]; exact hmin (j + 1) (by omega))
            h0
          show (if nt ≠ ne then bumpAttempt _ else _) = _
          rw [if_pos hne, hrec]
          show (some (gen (seed + 1 + (m : Int))).1, (gen (seed + 1 + (m : Int))).2.1,
              (gen (seed + 1 + (m : Int))).2.2, m + 1 + 1) = _
          rw [harg m]

/-- C2 (amended): the document is written whenever some attempt among the
first 99 calls returns equal counts (stopping at the first such); when all
of the first 99 attempts mismatch, the function returns without writing —
even when the 100th call returns equal counts, since the loop then exits
with `attempts == max_attempts` and the success is discarded. -/
theorem C2_retry_loop_write_behavior (gen : Int → String × Int × Int) (seed : Int) :
    ((∀ k : Nat, k < 99 → (gen (seed + k)).2.1 ≠ (gen (seed + k)).2.2) →
      generate_and_save_xml gen seed 100 = none)
    ∧ (∀ k : Nat, k < 99 →
        (gen (seed + k)).2.1 = (gen (seed + k)).2.2 →
        (∀ j : Nat, j < k → (gen (seed + j)).2.1 ≠ (gen (seed + j)).2.2) →
        generate_and_save_xml gen seed 100 = some (gen (seed + k)).1) := by
  constructor
  · intro hmis
    unfold generate_and_save_xml
    by_cases h99 : (gen (seed + (99 : Nat))).2.1 = (gen (seed + (99 : Nat))).2.2
    · have hloop := genLoop_first_match gen 99 100 seed (-1) 0 none (by omega) h99
        (fun j hj => hmis j hj) (by omega)
      rw [hloop]
      norm_num
    · have hall : ∀ k : Nat, k < 100 → (gen (seed + k)).2.1 ≠ (gen (seed + k)).2.2 := by
        intro k hk
        by_cases hk99 : k < 99
        · exact hmis k hk99
        · have hke : k = 99 := by omega
          subst hke
          exact h99
      have hloop := genLoop_all_mismatch gen 100 seed (-1) 0 none hall (by omega)
      rw [if_pos hloop]
  · intro k hk hmatch hmin
    unfold generate_and_save_xml
    have hloop := genLoop_first_match gen k 100 seed (-1) 0 none (by omega) hmatch hmin (by omega)
    rw [hloop]
    have hne100 : ¬ (k + 1 = 100) := by omega
    simp [hne100]

/-- C2 counterexample: a generator matching exactly on the 100th call
(seed 99, starting from seed 0): the claim predicts a written file, the
code writes nothing. -/
theorem C2_counterexample_match_on_last_attempt :
    generate_and_save_xml gen99 0 100 = none
      ∧ (gen99 (0 + (99 : Nat))).2.1 = (gen99 (0 + (99 : Nat))).2.2 := by
  constructor
  · decide
  · decide


/-! ## Pump dictionary lemmas (C5, C9) -/

theorem setSliceAux_length :
    ∀ (bits : List Bool) (i a b : Int), (setSliceAux bits i a b).length = bits.length := by
  intro bits
  induction bits with
  | nil => intro i a b; rfl
  | cons x xs ih => intro i a b; simp [setSliceAux, ih]

theorem setSliceAux_getD :
    ∀ (bits : List Bool) (i a b : Int) (t : Nat),
      (setSliceAux bits i a b).getD t false =
        if t < bits.length ∧ a ≤ i + t ∧ i + t < b then true else bits.getD t false := by
  intro bits
  induction bits with
  | nil =>
      intro i a b t
      simp [setSliceAux]
  | cons x xs ih =>
      intro i a b t
      cases t with
      | zero =>
          simp only [setSliceAux, List.getD_cons_zero, List.length_cons]
          by_cases h : a ≤ i ∧ i < b
          · rw [if_pos h, if_pos]
            refine ⟨by omega, by push_cast; omega⟩
          · rw [if_neg h, if_neg]
            intro hcon
            push_cast at hcon
            exact h ⟨by omega, by omega⟩
      | succ m =>
          simp only [setSliceAux, List.getD_cons_succ, List.length_cons]
          rw [ih (i + 1) a b m]
          by_cases h : m < xs.length ∧ a ≤ i + 1 + m ∧ i + 1 + m < b
          · rw [if_pos h, if_pos]
            push_cast
            push_cast at h
            refine ⟨by omega, by omega, by omega⟩
          · rw [if_neg h, if_neg]
            intro hcon
            push_cast at hcon h
            exact h ⟨by omega, by omega, by omega⟩

theorem sliceAll0_getD (bits : List Bool) (a b : Int) (hall : sliceAll0 bits a b = true)
    (ha : 0 ≤ a) (t : Nat) (hat : a ≤ t) (htb : (t : Int) < b) (hlen : t < bits.length) :
    bits.getD t false = false := by
  unfold sliceAll0 at hall
  rw [List.all_eq_true] at hall
  have hidx : t - a.toNat < ((bits.drop a.toNat).take (b - a).toNat).length := by
    simp only [List.length_take, List.length_drop]
    omega
  have hmem := hall (((bits.drop a.toNat).take (b - a).toNat).getD (t - a.toNat) false)
    (by
      rw [List.getD_eq_getElem _ _ hidx]
      exact List.getElem_mem hidx)
  have hval : ((bits.drop a.toNat).take (b - a).toNat).getD (t - a.toNat) false
      = bits.getD t false := by
    rw [List.getD_eq_getElem _ _ hidx]
    rw [List.getElem_take]
    rw [List.getElem_drop]
    rw [List.getD_eq_getElem _ _ (by omega)]
    congr 1
    omega
  rw [hval] at hmem
  simpa using hmem

theorem dictGet_cons (kv : String × List Bool) (rest : PumpDict) (p : String) :
    dictGet (kv :: rest) p = if kv.1 == p then kv.2 else dictGet rest p := by
  unfold dictGet
  rw [List.find?_cons]
  by_cases h : (kv.1 == p)
  · simp [h]
  · simp only [h]
    rw [if_neg (by simpa using h)]

theorem dictSet_cons (kv : String × List Bool) (rest : PumpDict) (q : String)
    (bits : List Bool) :
    dictSet (kv :: rest) q bits
      = (if kv.1 == q then (kv.1, bits) else kv) :: dictSet rest q bits := rfl

theorem containsKey_cons (kv : String × List Bool) (rest : PumpDict) (q : String) :
    containsKey (kv :: rest) q = ((kv.1 == q) || containsKey rest q) := rfl

theorem dictGet_dictSet (d : PumpDict) (p q : String) (bits : List Bool) :
    dictGet (dictSet d q bits) p =
      if p = q ∧ containsKey d q = true then bits else dictGet d p := by
  induction d with
  | nil => simp [dictSet, dictGet, containsKey]
  | cons kv rest ih =>
      rw [dictSet_cons]
      by_cases hq : kv.1 = q
      · rw [if_pos (by simpa using hq)]
        by_cases hp : p = q
        · rw [dictGet_cons]
          rw [if_pos (by simp [hq, hp])]
          rw [if_pos ⟨hp, by rw [containsKey_cons]; simp [hq]⟩]
        · rw [dictGet_cons, if_neg (by simp; rw [hq]; intro hEq; exact hp hEq.symm)]
          rw [ih, if_neg (by intro hcon; exact hp hcon.1)]
          rw [if_neg (by intro hcon; exact hp hcon.1)]
          rw [dictGet_cons, if_neg (by simp [hq]; intro hEq; exact hp hEq.symm)]
      · rw [if_neg (by simpa using hq)]
        rw [dictGet_cons]
        by_cases hkp : kv.1 = p
        · have hpq : p ≠ q := by intro hEq; exact hq (hEq ▸ hkp)
          rw [if_pos (by simpa using hkp)]
          rw [if_neg (by intro hcon; exact hpq hcon.1)]
          rw [dictGet_cons, if_pos (by simpa using hkp)]
        · rw [if_neg (by simpa using hkp)]
          rw [ih]
          rw [containsKey_cons]
          have hbq : (kv.1 == q) = false := by simpa using hq
          rw [hbq, Bool.false_or]
          by_cases hcond : p = q ∧ containsKey rest q = true
          · rw [if_pos hcond, if_pos hcond]
          · rw [if_neg hcond, if_neg hcond]
            rw [dictGet_cons, if_neg (by simpa using hkp)]

theorem containsKey_dictSet (d : PumpDict) (p q : String) (bits : List Bool) :
    containsKey (dictSet d q bits) p = containsKey d p := by
  induction d with
  | nil => rfl
  | cons kv rest ih =>
      rw [dictSet_cons, containsKey_cons, containsKey_cons, ih]
      by_cases hq : kv.1 = q
      · rw [if_pos (by simpa using hq)]
      · rw [if_neg (by simpa using hq)]

theorem containsKey_dictOfIntervals (sds : Nat) (S : List (String × Int × Int)) (p : String) :
    containsKey (dictOfIntervals sds S) p = containsKey (initPumpDict sds) p := by
  induction S with
  | nil => rfl
  | cons x rest ih => rw [dictOfIntervals, containsKey_dictSet, ih]

theorem initPumpDict_lengths (sds : Nat) :
    ∀ kv ∈ initPumpDict sds, kv.2.length = sds := by
  intro kv hkv
  unfold initPumpDict at hkv
  rw [List.mem_map] at hkv
  obtain ⟨i, -, hEq⟩ := hkv
  rw [← hEq]
  exact List.length_replicate sds false

theorem dictGet_length_of_mem (d : PumpDict) (p : String) (sds : Nat)
    (hlen : ∀ kv ∈ d, kv.2.length = sds) (hkey : containsKey d p = true) :
    (dictGet d p).length = sds := by
  induction d with
  | nil => simp [containsKey] at hkey
  | cons kv rest ih =>
      rw [dictGet_cons]
      by_cases h : kv.1 = p
      · rw [if_pos (by simpa using h)]
        exact hlen kv (List.mem_cons_self _ _)
      · rw [if_neg (by simpa using h)]
        rw [containsKey_cons] at hkey
        have hb : (kv.1 == p) = false := by simpa using h
        rw [hb, Bool.false_or] at hkey
        exact ih (fun e he => hlen e (List.mem_cons_of_mem _ he)) hkey

theorem dictSet_of_not_key (d : PumpDict) (q : String) (bits : List Bool)
    (h : containsKey d q = false) : dictSet d q bits = d := by
  induction d with
  | nil => rfl
  | cons kv rest ih =>
      rw [containsKey_cons, Bool.or_eq_false_iff] at h
      rw [dictSet_cons, if_neg (by simp [h.1]), ih h.2]

theorem dictOfIntervals_lengths (sds : Nat) (S : List (String × Int × Int)) :
    ∀ kv ∈ dictOfIntervals sds S, kv.2.length = sds := by
  induction S with
  | nil => exact initPumpDict_lengths sds
  | cons x rest ih =>
      rw [dictOfIntervals]
      by_cases hkey : containsKey (dictOfIntervals sds rest) x.1
      · intro kv hkv
        unfold dictSet at hkv
        rw [List.mem_map] at hkv
        obtain ⟨e, he, hEq⟩ := hkv
        by_cases hb : e.1 == x.1
        · rw [if_pos hb] at hEq
          rw [← hEq]
          show (setSlice (dictGet (dictOfIntervals sds rest) x.1) x.2.1 x.2.2).length = sds
          unfold setSlice
          rw [setSliceAux_length]
          exact dictGet_length_of_mem _ _ _ ih hkey
        · rw [if_neg hb] at hEq
          rw [← hEq]
          exact ih e he
      · rw [dictSet_of_not_key _ _ _ (by simpa using hkey)]
        exact ih

theorem bit_of_cover (sds : Nat) (S : List (String × Int × Int)) (p : String)
    (hkey : containsKey (initPumpDict sds) p = true) :
    ∀ x ∈ S, x.1 = p → ∀ t : Nat, x.2.1 ≤ (t : Int) → (t : Int) < x.2.2 → t < sds →
      (dictGet (dictOfIntervals sds S) p).getD t false = true := by
  induction S with
  | nil => intro x hx; simp at hx
  | cons y rest ih =>
      intro x hx hxp t hta htb htsds
      have hkeyR : containsKey (dictOfIntervals sds rest) y.1
          = containsKey (initPumpDict sds) y.1 := containsKey_dictOfIntervals sds rest y.1
      rw [dictOfIntervals, dictGet_dictSet]
      cases hx with
      | head =>
          rw [if_pos ⟨hxp.symm, by rw [hkeyR, hxp]; exact hkey⟩]
          show (setSliceAux (dictGet (dictOfIntervals sds rest) y.1) 0 y.2.1 y.2.2).getD t false
            = true
          rw [setSliceAux_getD]
          have hlen : (dictGet (dictOfIntervals sds rest) y.1).length = sds := by
            apply dictGet_length_of_mem _ _ _ (dictOfIntervals_lengths sds rest)
            rw [hkeyR, hxp]
            exact hkey
          rw [if_pos]
          refine ⟨by omega, by simpa using hta, by simpa using htb⟩
      | tail _ hxrest =>
          have hold := ih x hxrest hxp t hta htb htsds
          by_cases hcond : p = y.1 ∧ containsKey (dictOfIntervals sds rest) y.1 = true
          · rw [if_pos hcond]
            obtain ⟨hpy, -⟩ := hcond
            show (setSliceAux (dictGet (dictOfIntervals sds rest) y.1) 0 y.2.1 y.2.2).getD t false
              = true
            rw [← hpy, setSliceAux_getD, hold]
            by_cases hc : t < (dictGet (dictOfIntervals sds rest) p).length
                ∧ y.2.1 ≤ 0 + (t : Int) ∧ 0 + (t : Int) < y.2.2
            · rw [if_pos hc]
            · rw [if_neg hc]
          · rw [if_neg hcond]
            exact hold

theorem pump_name_mem : ∀ m : Nat, m < 7 →
    ("P" ++ toString (1 + (m : Int))) ∈ ["P1", "P2", "P3", "P4", "P5", "P6", "P7"] := by
  decide

theorem containsKey_init_of_mem (sds : Nat) (p : String)
    (hp : p ∈ ["P1", "P2", "P3", "P4", "P5", "P6", "P7"]) :
    containsKey (initPumpDict sds) p = true := by
  fin_cases hp <;> rfl

theorem selectPump_ok (failT fixT : Int) :
    ∀ (fuel : Nat) (d : PumpDict) (g : RNG) (p : String) (d' : PumpDict) (g' : RNG),
      selectPump d failT fixT fuel g = .ok (p, d', g') →
      selectPumpSpec d failT fixT fuel g p d' g' := by
  intro fuel
  induction fuel with
  | zero => intro d g p d' g' h; exact absurd h (by simp [selectPump])
  | succ f ih =>
      intro d g p d' g' h
      have hr : (randint 1 8 g).1 = 1 + ((g.stream g.idx % 7 : Nat) : Int) := rfl
      have hstep : selectPump d failT fixT (f + 1) g =
          if sliceAll0 (dictGet d ("P" ++ toString ((randint 1 8 g).1))) failT fixT
          then .ok ("P" ++ toString ((randint 1 8 g).1),
              dictSet d ("P" ++ toString ((randint 1 8 g).1))
                (setSlice (dictGet d ("P" ++ toString ((randint 1 8 g).1))) failT fixT),
              (randint 1 8 g).2)
          else selectPump d failT fixT f (randint 1 8 g).2 := rfl
      rw [hstep] at h
      by_cases hclean : sliceAll0
          (dictGet d ("P" ++ toString ((randint 1 8 g).1))) failT fixT
      · rw [if_pos hclean] at h
        simp only [Except.ok.injEq, Prod.mk.injEq] at h
        obtain ⟨hpEq, hdEq, hgEq⟩ := h
        have h7 : g.stream g.idx % 7 < 7 := Nat.mod_lt _ (by norm_num)
        refine ⟨0, by omega, ⟨1 + ((g.stream g.idx % 7 : Nat) : Int), by omega,
          by push_cast; omega, by rw [Nat.add_zero], by rw [← hpEq, hr]⟩, ?_, ?_, ?_, ?_⟩
        · rw [← hpEq]
          exact hclean
        · intro j hj; omega
        · rw [← hpEq]
          exact hdEq.symm
        · rw [← hgEq]
          rfl
      · rw [if_neg hclean] at h
        obtain ⟨k, hk, ⟨m, hm1, hm7, hmEq, hpEq⟩, hcl, hdirty, hdEq, hgEq⟩ :=
          ih d (randint 1 8 g).2 p d' g' h
        have hmEq2 : m = 1 + ((g.stream (g.idx + 1 + k) % 7 : Nat) : Int) := hmEq
        have hdirty2 : ∀ j : Nat, j < k → sliceAll0 (dictGet d
            ("P" ++ toString (1 + ((g.stream (g.idx + 1 + j) % 7 : Nat) : Int))))
            failT fixT = false := hdirty
        have hgEq2 : g' = ⟨g.stream, g.idx + 1 + (k + 1)⟩ := hgEq
        have hshift : ∀ j : Nat, g.idx + (j + 1) = g.idx + 1 + j := by intro j; omega
        refine ⟨k + 1, by omega, ⟨m, hm1, hm7, by rw [hshift k]; exact hmEq2, hpEq⟩,
          hcl, ?_, hdEq, by rw [hgEq2]; congr 1; omega⟩
        intro j hj
        cases j with
        | zero =>
            rw [Nat.add_zero]
            rw [hr] at hclean
            simpa using hclean
        | succ i =>
            rw [hshift i]
            exact hdirty2 i (by omega)

/-- C5 counterexample: the claim's "uniformly from the 8 resource units" is
false for the code's draw `np.random.randint(1, 8)`, whose half-open range
yields `1 + draw mod 7`: the eighth unit (P8) is never selectable. -/
theorem C5_counterexample_pump_eight_never_drawn :
    ¬ (∀ j : Int, 1 ≤ j → j ≤ 8 → ∃ g : RNG, (randint 1 8 g).1 = j) := by
  intro hall
  obtain ⟨g, hg⟩ := hall 8 (by norm_num) (by norm_num)
  have hr : (randint 1 8 g).1 = 1 + ((g.stream g.idx % 7 : Nat) : Int) := rfl
  rw [hr] at hg
  have h7 : g.stream g.idx % 7 < 7 := Nat.mod_lt _ (by norm_num)
  omega

/-- C5 (amended): each resman materialization selects the failed unit
uniformly at random from the SEVEN units P1..P7 (`np.random.randint(1, 8)`
yields `1 + draw mod 7`), re-drawing exactly while the drawn unit's bitmap
is non-zero somewhere over the candidate `[fail_time, fix_time)` window,
and marks the accepted unit's window. -/
theorem C5_resman_pump_selection (d : PumpDict) (failT fixT : Int) (fuel : Nat)
    (g : RNG) (p : String) (d' : PumpDict) (g' : RNG)
    (h : selectPump d failT fixT fuel g = .ok (p, d', g')) :
    selectPumpSpec d failT fixT fuel g p d' g' :=
  selectPump_ok failT fixT fuel d g p d' g' h

theorem C5_resman_pump_selection_witness :
    selectPumpSpec (initPumpDict 20) 5 10 1 rngZero "P1"
      (dictSet (initPumpDict 20) "P1" (setSlice (dictGet (initPumpDict 20) "P1") 5 10))
      ⟨rngZero.stream, rngZero.idx + 1⟩ :=
  C5_resman_pump_selection (initPumpDict 20) 5 10 1 rngZero "P1"
    (dictSet (initPumpDict 20) "P1" (setSlice (dictGet (initPumpDict 20) "P1") 5 10))
    ⟨rngZero.stream, rngZero.idx + 1⟩ rfl

/-- C9: a pump accepted by the selection loop had an all-zero bitmap over
the candidate window, so marking it extends the recorded placements by one
and keeps every unit's fail/fix windows pairwise disjoint. -/
theorem C9_resman_interval_disjointness (sds : Nat) (S : List (String × Int × Int))
    (failT fixT : Int) (fuel : Nat) (g : RNG) (p : String) (d' : PumpDict) (g' : RNG)
    (hdisj : S.Pairwise intervalsDisjoint)
    (hwf : ∀ x ∈ S, 0 ≤ x.2.1 ∧ x.2.2 ≤ (sds : Int))
    (hfail : 0 ≤ failT) (hfix : fixT ≤ (sds : Int))
    (h : selectPump (dictOfIntervals sds S) failT fixT fuel g = .ok (p, d', g')) :
    d' = dictOfIntervals sds ((p, failT, fixT) :: S)
      ∧ ((p, failT, fixT) :: S).Pairwise intervalsDisjoint := by
  obtain ⟨k, -, ⟨m, hm1, hm7, hmEq, hpEq⟩, hclean, -, hdEq, -⟩ :=
    selectPump_ok failT fixT fuel (dictOfIntervals sds S) g p d' g' h
  have hkey : containsKey (initPumpDict sds) p = true := by
    rw [hpEq]
    apply containsKey_init_of_mem
    have h7 : g.stream (g.idx + k) % 7 < 7 := Nat.mod_lt _ (by norm_num)
    exact hmEq ▸ pump_name_mem _ h7
  constructor
  · rw [hdEq]
    rfl
  · refine List.Pairwise.cons ?_ hdisj
    intro y hy
    show p = y.1 → min fixT y.2.2 ≤ max failT y.2.1
    intro hpy
    by_contra hover
    push_neg at hover
    set t : Int := max failT y.2.1 with htdef
    have hy21 : 0 ≤ y.2.1 := (hwf y hy).1
    have ht0 : 0 ≤ t := le_trans hfail (le_max_left _ _)
    have htfix : t < fixT := lt_of_lt_of_le hover (min_le_left _ _)
    have hty : t < y.2.2 := lt_of_lt_of_le hover (min_le_right _ _)
    have htsds : t < (sds : Int) := lt_of_lt_of_le htfix hfix
    have htn : (t.toNat : Int) = t := Int.toNat_of_nonneg ht0
    have hbit := bit_of_cover sds S p hkey y hy hpy.symm t.toNat
      (by rw [htn]; exact le_max_right _ _) (by rw [htn]; exact hty) (by omega)
    have hlen : (dictGet (dictOfIntervals sds S) p).length = sds := by
      apply dictGet_length_of_mem _ _ _ (dictOfIntervals_lengths sds S)
      rw [containsKey_dictOfIntervals]
      exact hkey
    have hzero := sliceAll0_getD (dictGet (dictOfIntervals sds S) p) failT fixT hclean hfail
      t.toNat (by rw [htn]; exact le_max_left _ _) (by rw [htn]; exact htfix) (by omega)
    rw [hzero] at hbit
    exact absurd hbit (by decide)

theorem C9_resman_interval_disjointness_witness :
    dictSet (dictOfIntervals 30 [ ("P3", 2, 6)]) "P1"
        (setSlice (dictGet (dictOfIntervals 30 [ ("P3", 2, 6)]) "P1") 10 20)
      = dictOfIntervals 30 [ ("P1", 10, 20), ("P3", 2, 6)]
    ∧ ([ ("P1", (10:Int), (20:Int)), ("P3", 2, 6)]).Pairwise intervalsDisjoint :=
  C9_resman_interval_disjointness 30 [ ("P3", 2, 6)] 10 20 1 rngZero "P1"
    (dictSet (dictOfIntervals 30 [ ("P3", 2, 6)]) "P1"
      (setSlice (dictGet (dictOfIntervals 30 [ ("P3", 2, 6)]) "P1") 10 20))
    ⟨rngZero.stream, rngZero.idx + 1⟩
    (by simp [intervalsDisjoint])
    (by decide) (by norm_num) (by norm_num) rfl


/-! ## Determinism (C3) -/

/-- C3: with a fixed integer seed and fixed parameters, the generation
pipeline's result — document text and both counts — does not depend on the
incoming global random state: `seed_everything` overwrites it before any
draw, so two independent runs coincide exactly. -/
theorem C3_fixed_seed_determinism (s : Int)
    (min_seconds_event_diff max_seconds_event_diff session_duration_minutes
      min_seconds_fail_fix_resman max_seconds_fail_fix_resman
      min_seconds_to_indicate_no_comm seconds_before_comm_stop
      seconds_after_comm_start : Int)
    (n_pump_failures n_own_comm n_other_comm n_green_red_issues n_systems_up_down : Nat)
    (total_auto_minutes : Int) (stemsFor : String → List String) (g g' : RNG) :
    matbii_generate_random_xml (some s) min_seconds_event_diff max_seconds_event_diff
      session_duration_minutes min_seconds_fail_fix_resman max_seconds_fail_fix_resman
      min_seconds_to_indicate_no_comm seconds_before_comm_stop seconds_after_comm_start
      n_pump_failures n_own_comm n_other_comm n_green_red_issues n_systems_up_down
      total_auto_minutes stemsFor g
    = matbii_generate_random_xml (some s) min_seconds_event_diff max_seconds_event_diff
      session_duration_minutes min_seconds_fail_fix_resman max_seconds_fail_fix_resman
      min_seconds_to_indicate_no_comm seconds_before_comm_stop seconds_after_comm_start
      n_pump_failures n_own_comm n_other_comm n_green_red_issues n_systems_up_down
      total_auto_minutes stemsFor g' := rfl

/-! ## Missing communication events (C10) -/

theorem exBind_ok {α β : Type} (a : α) (f : α → Except Err β) :
    (Except.ok a >>= f) = f a := rfl

theorem exBind_error {α β : Type} (e : Err) (f : α → Except Err β) :
    ((Except.error e : Except Err α) >>= f) = .error e := rfl

theorem get_seconds_format (n : Nat) (rest : List (String × String)) (txt : Option String)
    (cs : List XTree) :
    _get_seconds_from_elem (.elem "event" (("startTime", _format_seconds n) :: rest) txt cs)
      = .ok ((n : Nat) : Int) := by
  have h1 : getAttr (.elem "event" (("startTime", _format_seconds n) :: rest) txt cs)
      "startTime" = .ok (_format_seconds n) := rfl
  show (getAttr _ "startTime" >>= fun s =>
    match _parse_time_string s with
    | some v => Except.ok v
    | none => Except.error Err.formatError) = _
  rw [h1, exBind_ok]
  have h2 : _parse_time_string (_format_seconds n) = some ((n : Nat) : Int) :=
    parse_format_roundtrip n
  rw [h2]

theorem timeParses_format (n : Nat) (rest : List (String × String)) (txt : Option String)
    (cs : List XTree) :
    timeParses (.elem "event" (("startTime", _format_seconds n) :: rest) txt cs) = true := by
  unfold timeParses
  rw [get_seconds_format]

theorem mapM_keyed_ok :
    ∀ (l : List XTree), (∀ e ∈ l, timeParses e = true) →
      ∃ keyed : List (Int × XTree),
        (l.mapM (fun e => do
          let k ← _get_seconds_from_elem e
          pure (k, e)) : Except Err (List (Int × XTree))) = .ok keyed
        ∧ ∀ p ∈ keyed, p.2 ∈ l := by
  intro l
  induction l with
  | nil => exact fun _ => ⟨[], rfl, by simp⟩
  | cons e rest ih =>
      intro hall
      obtain ⟨keyed, hk, hmem⟩ := ih (fun x hx => hall x (List.mem_cons_of_mem _ hx))
      have he := hall e (List.mem_cons_self _ _)
      unfold timeParses at he
      cases hE : _get_seconds_from_elem e with
      | error err => rw [hE] at he; simp at he
      | ok v =>
          refine ⟨(v, e) :: keyed, ?_, ?_⟩
          · rw [List.mapM_cons, hE]
            show (Except.ok v >>= fun k => (List.mapM _ rest) >>= fun ys =>
              pure ((k, e) :: ys)) = _
            rw [exBind_ok, hk, exBind_ok]
            rfl
          · intro p hp
            cases hp with
            | head => exact List.mem_cons_self _ _
            | tail _ hp => exact List.mem_cons_of_mem _ (hmem p hp)

theorem insertSorted_mem (y : Int × XTree) :
    ∀ (acc : List (Int × XTree)) (x : Int × XTree),
      x ∈ insertSorted y acc → x = y ∨ x ∈ acc := by
  intro acc
  induction acc with
  | nil => intro x hx; simp [insertSorted] at hx; exact Or.inl hx
  | cons z zs ih =>
      intro x hx
      unfold insertSorted at hx
      by_cases hz : z.1 ≤ y.1
      · rw [if_pos hz] at hx
        cases hx with
        | head => exact Or.inr (List.mem_cons_self _ _)
        | tail _ hx =>
            cases ih x hx with
            | inl h => exact Or.inl h
            | inr h => exact Or.inr (List.mem_cons_of_mem _ h)
      · rw [if_neg hz] at hx
        cases hx with
        | head => exact Or.inl rfl
        | tail _ hx => exact Or.inr hx

theorem foldl_insert_mem :
    ∀ (keyed acc : List (Int × XTree)) (x : Int × XTree),
      x ∈ keyed.foldl (fun a y => insertSorted y a) acc → x ∈ keyed ∨ x ∈ acc := by
  intro keyed
  induction keyed with
  | nil => intro acc x hx; exact Or.inr hx
  | cons y ys ih =>
      intro acc x hx
      rw [List.foldl_cons] at hx
      cases ih (insertSorted y acc) x hx with
      | inl h => exact Or.inl (List.mem_cons_of_mem _ h)
      | inr h =>
          cases insertSorted_mem y acc x h with
          | inl hEq => exact Or.inl (hEq ▸ List.mem_cons_self _ _)
          | inr h => exact Or.inr h

theorem sort_ok_of_parses (t : String) (a : List (String × String)) (x : Option String)
    (cs : List XTree) (hp : ∀ e ∈ cs, timeParses e = true) :
    ∃ cs', _sort_events_by_seconds (.elem t a x cs) = .ok (.elem t a x cs')
      ∧ ∀ e ∈ cs', e ∈ cs := by
  obtain ⟨keyed, hk, hmem⟩ := mapM_keyed_ok cs hp
  refine ⟨(keyed.foldl (fun acc y => insertSorted y acc) []).map Prod.snd, ?_, ?_⟩
  · have hstep : _sort_events_by_seconds (.elem t a x cs)
        = ((cs.mapM (fun e => do
            let k ← _get_seconds_from_elem e
            pure (k, e)) : Except Err (List (Int × XTree))) >>= fun keyed =>
          Except.ok (.elem t a x
            ((keyed.foldl (fun acc y => insertSorted y acc) []).map Prod.snd))) := rfl
    rw [hstep, hk, exBind_ok]
  · intro e he
    rw [List.mem_map] at he
    obtain ⟨p, hpmem, hpe⟩ := he
    cases foldl_insert_mem keyed [] p hpmem with
    | inl h => exact hpe ▸ hmem p h
    | inr h => simp at h

theorem commTimesLoop_no_comm :
    ∀ (l : List XTree), (∀ e ∈ l, hasChildTag e "comm" = false) →
      commTimesLoop l = .ok [] := by
  intro l
  induction l with
  | nil => intro _; rfl
  | cons e rest ih =>
      intro hall
      unfold commTimesLoop
      rw [hall e (List.mem_cons_self _ _)]
      show commTimesLoop rest = _
      exact ih (fun x hx => hall x (List.mem_cons_of_mem _ hx))

/-- Framing on a tree whose events carry no communication payload: the
first-element access of the empty comm-time list raises `IndexError`. -/
theorem comm_start_stop_no_comm_events (root : XTree)
    (minNo sbcs sacs sds : Int)
    (hparse : ∀ e ∈ childrenOf root, timeParses e = true)
    (hnc : ∀ e ∈ findallEvents root, hasChildTag e "comm" = false) :
    _generate_all_comm_start_stop root minNo sbcs sacs sds = .error .indexError := by
  cases root with
  | comment s => rfl
  | elem t a x cs =>
      obtain ⟨cs', hsort, hsub⟩ := sort_ok_of_parses t a x cs hparse
      unfold _generate_all_comm_start_stop
      rw [hsort, exBind_ok]
      have hct : _get_comm_task_times (.elem t a x cs') = .ok [] := by
        unfold _get_comm_task_times
        apply commTimesLoop_no_comm
        intro e he
        unfold findallEvents at he
        rw [List.mem_filter] at he
        apply hnc
        unfold findallEvents
        rw [List.mem_filter]
        exact ⟨hsub e he.1, he.2⟩
      rw [hct, exBind_ok]
      rfl

theorem autoTask_children_eq (t : String) (a : List (String × String)) (x : Option String)
    (cs : List XTree) (c ta sds : Int) :
    childrenOf (_generate_auto_task (.elem t a x cs) c ta sds)
      = cs ++ [XTree.elem "event" [ ("startTime", _format_seconds c.toNat)] none
          [.comment "Sched task", schedEl "TRACK" "AUTO" "NULL" "NULL"],
        XTree.elem "event" [ ("startTime", _format_seconds (c + ta * 60).toNat)] none
          [.comment "Sched task", schedEl "TRACK" "MANUAL" "MEDIUM" "HIGH"],
        XTree.elem "event" [ ("startTime", _format_seconds (sds - 3).toNat)] none
          [.comment "Sched task", schedEl "TRACK" "AUTO" "NULL" "NULL"]] := by
  show (((cs ++ [_]) ++ [_]) ++ [_] : List XTree) = _
  simp

theorem autoTask_parse_preserved (root : XTree) (c ta sds : Int)
    (hp : ∀ e ∈ childrenOf root, timeParses e = true) :
    ∀ e ∈ childrenOf (_generate_auto_task root c ta sds), timeParses e = true := by
  cases root with
  | comment s => exact hp
  | elem t a x cs =>
      intro e he
      rw [autoTask_children_eq, List.mem_append] at he
      cases he with
      | inl h => exact hp e h
      | inr h =>
          simp only [List.mem_cons, List.not_mem_nil, or_false] at h
          rcases h with rfl | rfl | rfl
          · exact timeParses_format _ [] none _
          · exact timeParses_format _ [] none _
          · exact timeParses_format _ [] none _

theorem autoTask_no_comm_preserved (root : XTree) (c ta sds : Int)
    (hnc : ∀ e ∈ findallEvents root, hasChildTag e "comm" = false) :
    ∀ e ∈ findallEvents (_generate_auto_task root c ta sds),
      hasChildTag e "comm" = false := by
  cases root with
  | comment s => exact hnc
  | elem t a x cs =>
      intro e he
      unfold findallEvents at he
      rw [autoTask_children_eq] at he
      rw [List.mem_filter, List.mem_append] at he
      obtain ⟨hmem, htag⟩ := he
      cases hmem with
      | inl h =>
          apply hnc
          unfold findallEvents
          rw [List.mem_filter]
          exact ⟨h, htag⟩
      | inr h =>
          simp only [List.mem_cons, List.not_mem_nil, or_false] at h
          rcases h with rfl | rfl | rfl <;> rfl

/-- C10: whenever the event tree reaching session framing holds no
communication event — in particular when the scheduler exhausted its
attempt budget so that `_generate_tasks` materialized nothing, or when the
adjusted task types contain no comm label — `matbii_generate_random_xml`
propagates the `IndexError` of `_generate_all_comm_start_stop`'s
first-element access instead of returning a document or failure signal. -/
theorem C10_missing_comm_raises_index_error
    (random_state : Option Int) (stemsFor : String → List String) (g : RNG)
    (mind maxd smin minFF maxFF minNoComm sbcs sacs : Int)
    (n1 n2 n3 n4 n5 : Nat) (tauto : Int)
    (sds : Int) (et : List Int) (tt0 tt : List String) (nt ne : Nat)
    (g1 g2 g3 : RNG) (root1 : XTree) (stems1 : CommStems)
    (hev : _generate_event_times_and_task_types smin mind maxd n1 n2 n3 n4 n5
        (_initialize_matbii_generation random_state stemsFor g).2.2.2
      = .ok (sds, et, tt0, g1))
    (hadj : _adjust_task_types tt0 et g1 = .ok (tt, nt, ne, g2))
    (htasks : _generate_tasks (_initialize_matbii_generation random_state stemsFor g).2.1
        tt et (_initialize_matbii_generation random_state stemsFor g).2.2.1
        minFF maxFF sds sbcs sacs g2 = .ok (root1, stems1, g3))
    (hnc : hasCommEvent root1 = false)
    (hparse : ∀ e ∈ childrenOf root1, timeParses e = true)
    (hrange : (5 : Int) < sds - tauto * 60 - 5) :
    matbii_generate_random_xml random_state mind maxd smin minFF maxFF minNoComm
      sbcs sacs n1 n2 n3 n4 n5 tauto stemsFor g = .error .indexError := by
  have hncE : ∀ e ∈ findallEvents root1, hasChildTag e "comm" = false := by
    intro e he
    unfold hasCommEvent at hnc
    rw [List.any_eq_false] at hnc
    simpa using hnc e he
  have hauto : _generate_auto_and_comm_start_stop root1 sds tauto minNoComm sbcs sacs g3
      = .error .indexError := by
    have hc : choiceRange 5 (sds - tauto * 60 - 5) g3
        = .ok (5 + ((g3.next.1 % (sds - tauto * 60 - 5 - 5).toNat : Nat) : Int), g3.next.2) := by
      unfold choiceRange
      rw [if_pos hrange]
    simp only [_generate_auto_and_comm_start_stop]
    rw [hc, exBind_ok]
    rw [comm_start_stop_no_comm_events _ minNoComm sbcs sacs sds
      (autoTask_parse_preserved root1 _ tauto sds hparse)
      (autoTask_no_comm_preserved root1 _ tauto sds hncE)]
    rfl
  simp only [matbii_generate_random_xml, hev, exBind_ok, hadj, htasks, hauto, exBind_error]

theorem C10_missing_comm_raises_index_error_witness :
    matbii_generate_random_xml (some 0) 30 31 1 20 90 90 600 5 0 0 0 1 1 0
      stemsFixture rngZero = .error .indexError :=
  C10_missing_comm_raises_index_error (some 0) stemsFixture rngZero
    30 31 1 20 90 90 600 5 0 0 0 1 1 0
    _ _ _ _ _ _ _ _ _ _ _ rfl rfl rfl (by rfl) (by decide) (by norm_num)

end Matbexp
